import Mathlib

/-!
Verification development for the Save Progress module (`save-progress.js`).

The module is shallowly embedded: JavaScript values are modelled by the
inductive `JSVal`; the module's mutable state (the console log buffer, the
notes store and their persisted copies in `localStorage`) is modelled by
explicit state records, and each event handler of the source becomes a pure
state-transition function.  Machine integers do not occur; timestamps are
naturals/integers.
-/

set_option maxHeartbeats 1000000
set_option maxRecDepth 100000

namespace SaveProgress

/-- A JavaScript value, as far as the module manipulates them: the
primitives, arrays, and plain objects with string keys in insertion order. -/
inductive JSVal where
  | undefined
  | null
  | bool (b : Bool)
  | num (n : Int)
  | str (s : String)
  | arr (elems : List JSVal)
  | obj (fields : List (String × JSVal))

namespace JSVal

/-- JavaScript truthiness: `undefined`, `null`, `false`, `0` and `""` are
falsy, everything else (including empty arrays and objects) is truthy. -/
def truthy : JSVal → Bool
  | .undefined => false
  | .null => false
  | .bool b => b
  | .num n => n != 0
  | .str s => s ≠ ""
  | .arr _ => true
  | .obj _ => true

/-- Whether `typeof v === "object"` holds (`null`, arrays and objects). -/
def typeofObject : JSVal → Bool
  | .null => true
  | .arr _ => true
  | .obj _ => true
  | _ => false

def isObj : JSVal → Bool
  | .obj _ => true
  | _ => false

end JSVal

/-- Association-list lookup for JS object fields / the notes store
(first binding wins; the module never creates duplicate keys). -/
def storeGet : List (String × JSVal) → String → Option JSVal
  | [], _ => none
  | (k', v) :: rest, k => if k' = k then some v else storeGet rest k

/-- Association-list update: JS property assignment keeps the position of an
existing key and appends a fresh key at the end (insertion order). -/
def storeSet : List (String × JSVal) → String → JSVal → List (String × JSVal)
  | [], k, v => [(k, v)]
  | (k', v') :: rest, k, v =>
      if k' = k then (k, v) :: rest else (k', v') :: storeSet rest k v

/-- Property read `v[k]` on a value already known to be object-typed;
on arrays and primitives the module only ever reads properties that do not
exist there, which yields `undefined`. -/
def jsGet (v : JSVal) (k : String) : JSVal :=
  match v with
  | .obj fields => (storeGet fields k).getD .undefined
  | _ => .undefined

/-- Strict-mode property assignment `v[k] = w`: succeeds on objects,
throws a `TypeError` (modelled as `none`) on primitives, `null` and
`undefined`.  (Expando properties on arrays are outside the states the
theorems range over.) -/
def jsSetProp (v : JSVal) (k : String) (w : JSVal) : Option JSVal :=
  match v with
  | .obj fields => some (.obj (storeSet fields k w))
  | .arr l => some (.arr l)
  | _ => none

/-! ### String conversions (`String(x)`, template literals, `JSON.stringify`) -/

mutual

/-- JavaScript `ToString` conversion, as used by template literals and
`String(x)`: arrays join their elements with commas (empty for `null` /
`undefined`), plain objects print as `[object Object]`. -/
def jsToStr : JSVal → String
  | .undefined => "undefined"
  | .null => "null"
  | .bool true => "true"
  | .bool false => "false"
  | .num n => toString n
  | .str s => s
  | .arr l => jsToStrElems l
  | .obj _ => "[object Object]"

/-- `Array.prototype.join(",")` over the element list. -/
def jsToStrElems : List JSVal → String
  | [] => ""
  | [v] => jsToStrElem v
  | v :: rest => jsToStrElem v ++ "," ++ jsToStrElems rest
termination_by structural l => l

/-- A single joined element: `null` and `undefined` become empty. -/
def jsToStrElem : JSVal → String
  | .undefined => ""
  | .null => ""
  | .bool true => "true"
  | .bool false => "false"
  | .num n => toString n
  | .str s => s
  | .arr l => jsToStrElems l
  | .obj _ => "[object Object]"
termination_by structural v => v

end

/-- One hexadecimal digit. -/
def hexDigit (n : Nat) : Char :=
  if n < 10 then Char.ofNat (48 + n) else Char.ofNat (87 + (n % 16))

/-- JSON string escaping of a single character, as produced by
`JSON.stringify` on strings. -/
def jsonEscChar (c : Char) : List Char :=
  if c = '"' then ['\\', '"']
  else if c = '\\' then ['\\', '\\']
  else if c = '\n' then ['\\', 'n']
  else if c = '\r' then ['\\', 'r']
  else if c = '\t' then ['\\', 't']
  else if c.toNat = 8 then ['\\', 'b']
  else if c.toNat = 12 then ['\\', 'f']
  else if c.toNat < 32 then
    ['\\', 'u', '0', '0', hexDigit (c.toNat / 16), hexDigit (c.toNat % 16)]
  else [c]

/-- Escaped body of a JSON-serialized string. -/
def jsonQuoteL : List Char → List Char
  | [] => []
  | c :: rest => jsonEscChar c ++ jsonQuoteL rest

/-- `JSON.stringify` applied to a string: quoted and escaped. -/
def jsonQuote (s : String) : String :=
  String.mk ('"' :: jsonQuoteL s.data ++ ['"'])

mutual

/-- `JSON.stringify` over the embedded values (no cycles are representable,
so serialization never throws here).  `undefined` inside an array prints as
`null`; an `undefined` object field is omitted. -/
def jsonStr : JSVal → String
  | .undefined => "undefined"
  | .null => "null"
  | .bool true => "true"
  | .bool false => "false"
  | .num n => toString n
  | .str s => jsonQuote s
  | .arr l => "[" ++ jsonStrElems l ++ "]"
  | .obj fields => "\x7b" ++ jsonStrFields fields ++ "\x7d"
termination_by structural v => v

def jsonStrElems : List JSVal → String
  | [] => ""
  | [v] => jsonStrElem v
  | v :: rest => jsonStrElem v ++ "," ++ jsonStrElems rest
termination_by structural l => l

def jsonStrElem : JSVal → String
  | .undefined => "null"
  | .null => "null"
  | .bool true => "true"
  | .bool false => "false"
  | .num n => toString n
  | .str s => jsonQuote s
  | .arr l => "[" ++ jsonStrElems l ++ "]"
  | .obj fields => "\x7b" ++ jsonStrFields fields ++ "\x7d"
termination_by structural v => v

def jsonStrFields : List (String × JSVal) → String
  | [] => ""
  | (_, .undefined) :: rest => jsonStrFields rest
  | (k, v) :: rest =>
      jsonQuote k ++ ":" ++ jsonStr v ++
        (match rest with
         | [] => ""
         | _ => ",") ++ jsonStrFields rest
termination_by structural l => l

end

/-- Per-argument stringification of the console interceptor (line 54-57 of
the source): object-typed values go through `JSON.stringify`, everything
else through `String(...)`. -/
def stringifyArg (a : JSVal) : String :=
  if a.typeofObject then jsonStr a else jsToStr a

/-! ### Hub state: log buffer, notes store and their persisted copies -/

/-- `MAX_LOGS` (line 28 of the source). -/
def MAX_LOGS : Nat := 400

/-- The log-entry object `{ t, lvl, msg }` built by the interceptor and the
relay.  The level slot holds a raw value because the relay copies
`e.data.lvl` without validation. -/
def mkLogEntry (t : Int) (lvl : JSVal) (msg : String) : JSVal :=
  .obj [("t", .num t), ("lvl", lvl), ("msg", .str msg)]

/-- The shared append discipline (lines 59-61 and 553-554): `push`, then if
the length exceeds `MAX_LOGS`, `splice(0, length - MAX_LOGS)` removes the
excess from the front. -/
def appendLog (buf : List JSVal) (entry : JSVal) : List JSVal :=
  if MAX_LOGS < (buf ++ [entry]).length then
    (buf ++ [entry]).drop ((buf ++ [entry]).length - MAX_LOGS)
  else buf ++ [entry]

/-- Hub-side module state: the in-memory `consoleLogs` array and `notesStore`
object, together with the values last written to `localStorage` under
`dbg_console_v1` and `dbg_notes_v1`. -/
structure HubSt where
  consoleLogs : List JSVal
  notesStore : List (String × JSVal)
  persistedLogs : List JSVal
  persistedNotes : List (String × JSVal)

/-- One intercepted console call (lines 49-63): pass-through to the original
handler, stringify-and-join the arguments, append, persist. -/
def consoleCall (method : String) (args : List JSVal) (now : Int) (st : HubSt) : HubSt :=
  let entry := mkLogEntry now (.str method)
    (String.intercalate " " (args.map stringifyArg))
  let logs := appendLog st.consoleLogs entry
  { st with consoleLogs := logs, persistedLogs := logs }

/-- The "Clear logs" click handler (lines 329-331). -/
def clearLogs (st : HubSt) : HubSt :=
  { st with consoleLogs := [], persistedLogs := [] }

/-- The `sp_note` branch of the message listener (lines 558-563).  The key is
the property-key coercion of `e.data.key`; a falsy slot is (re)created with
the relayed title; then `notes` and `ts` are assigned and the registry is
persisted.  A strict-mode `TypeError` (truthy non-object slot) aborts before
`saveNotes()`. -/
def spNoteBranch (data : JSVal) (now : Int) (st : HubSt) : HubSt :=
  let k := jsToStr (jsGet data "key")
  let fresh : JSVal :=
    .obj [("title", jsGet data "gameTitle"), ("notes", .str ""), ("ts", .num now)]
  let st1 :=
    if ((storeGet st.notesStore k).getD .undefined).truthy then st
    else { st with notesStore := storeSet st.notesStore k fresh }
  match storeGet st1.notesStore k with
  | some v =>
    match jsSetProp v "notes" (jsGet data "txt") with
    | some v1 =>
      let v2 := (jsSetProp v1 "ts" (.num now)).getD v1
      let store := storeSet st1.notesStore k v2
      { st1 with notesStore := store, persistedNotes := store }
    | none => st1
  | none => st1

/-- The process-wide message listener (lines 549-564): non-truthy or
non-object-typed data returns immediately; otherwise the `sp_log` and
`sp_note` branches each test `e.data.type` by strict string equality. -/
def onMessage (data : JSVal) (now : Int) (st : HubSt) : HubSt :=
  if !data.truthy || !data.typeofObject then st
  else
    let st1 :=
      match jsGet data "type" with
      | .str t =>
        if t = "sp_log" then
          let entry := mkLogEntry now (jsGet data "lvl")
            ("[" ++ jsToStr (jsGet data "gameTitle") ++ "] " ++ jsToStr (jsGet data "msg"))
          let logs := appendLog st.consoleLogs entry
          { st with consoleLogs := logs, persistedLogs := logs }
        else st
      | _ => st
    match jsGet data "type" with
    | .str t => if t = "sp_note" then spNoteBranch data now st1 else st1
    | _ => st1

/-! ### Import / export (lines 590-622) -/

def importAlertFail : String := "⚠ Invalid save file."

def importAlertOk : String := "✓ Import successful!"

/-- Spread `...v` as in `consoleLogs.push(...v)`: arrays and strings are
iterable, every other value throws a `TypeError`. -/
def jsIterate : JSVal → Option (List JSVal)
  | .arr l => some l
  | .str s => some (s.data.map fun c => .str (String.mk [c]))
  | _ => none

/-- Own enumerable properties, as consumed by `Object.assign`: object fields,
indexed characters for strings, nothing for other primitives. -/
def jsOwnProps : JSVal → List (String × JSVal)
  | .obj fields => fields
  | .str s => s.data.enum.map fun p => (toString p.1, JSVal.str (String.mk [p.2]))
  | _ => []

/-- `Object.assign(target, src)` over field lists. -/
def objAssign (target src : List (String × JSVal)) : List (String × JSVal) :=
  src.foldl (fun acc kv => storeSet acc kv.1 kv.2) target

/-- The `sp-import-file` change handler (lines 607-622).  `parsed` is the
result of `JSON.parse` (`none` when parsing threw).  Returned alongside the
new state is the list of `alert` messages shown.  Property access on a
parsed `null` throws and is caught by the same handler.  A truthy
`consoleLogs` field first empties the buffer and then spreads the field into
`push`, which throws on non-iterable values — after `notes` was already
merged. -/
def importHandler (parsed : Option JSVal) (st : HubSt) : HubSt × List String :=
  match parsed with
  | none => (st, [importAlertFail])
  | some .null => (st, [importAlertFail])
  | some .undefined => (st, [importAlertFail])
  | some data =>
    let st1 :=
      if (jsGet data "notes").truthy then
        { st with notesStore := objAssign st.notesStore (jsOwnProps (jsGet data "notes")) }
      else st
    if (jsGet data "consoleLogs").truthy then
      let st2 := { st1 with consoleLogs := [] }
      match jsIterate (jsGet data "consoleLogs") with
      | some vals =>
        let st3 := { st2 with consoleLogs := vals }
        ({ st3 with persistedNotes := st3.notesStore, persistedLogs := st3.consoleLogs },
          [importAlertOk])
      | none => (st2, [importAlertFail])
    else
      ({ st1 with persistedNotes := st1.notesStore, persistedLogs := st1.consoleLogs },
        [importAlertOk])

/-- Keys of an object, in order. -/
def objKeys : JSVal → List String
  | .obj fields => fields.map Prod.fst
  | _ => []

/-- The object built by the "Download full save" click handler
(lines 590-597). -/
def spDlAll (nowIso : String) (st : HubSt) : JSVal :=
  .obj [("exported", .str nowIso), ("version", .num 1),
        ("notes", .obj st.notesStore), ("consoleLogs", .arr st.consoleLogs)]

/-! ### JavaScript `String.prototype.replace` with string arguments -/

/-- Splits `l` at the first occurrence of `pat`: `some (pre, post)` with
`l = pre ++ pat ++ post` and the occurrence leftmost; `none` when `pat`
does not occur. -/
def splitOnFirst (pat : List Char) : List Char → Option (List Char × List Char)
  | [] => if pat = [] then some ([], []) else none
  | c :: rest =>
      if pat.isPrefixOf (c :: rest) then some ([], (c :: rest).drop pat.length)
      else (splitOnFirst pat rest).map fun pr => (c :: pr.1, pr.2)

/-- Substitution of `$`-patterns in the replacement text (ECMAScript
`GetSubstitution` for a string pattern, which has no capture groups):
`$$` is a literal dollar, `$&` the matched text, a dollar followed by
`U+0060` the text before the match, `$` + `U+0027` the text after it;
any other `$` stays literal. -/
def expandRepl (matched pre post : List Char) : List Char → List Char
  | [] => []
  | c :: rest =>
    if c = '$' then
      match rest with
      | [] => [c]
      | d :: rest2 =>
        if d = '$' then '$' :: expandRepl matched pre post rest2
        else if d = '&' then matched ++ expandRepl matched pre post rest2
        else if d = Char.ofNat 96 then pre ++ expandRepl matched pre post rest2
        else if d = Char.ofNat 39 then post ++ expandRepl matched pre post rest2
        else c :: d :: expandRepl matched pre post rest2
    else c :: expandRepl matched pre post rest

/-- `s.replace(pat, repl)` with string arguments: replaces the first
occurrence only, with `$`-substitution in the replacement; returns `s`
unchanged when `pat` does not occur. -/
def jsReplaceFirst (s pat repl : String) : String :=
  match splitOnFirst pat.data s.data with
  | none => s
  | some (pre, post) =>
      String.mk (pre ++ expandRepl pat.data pre post repl.data ++ post)

/-! ### The injection patcher (lines 414-428, 435-546, 566-569) -/

/-- The shape of the function currently stored in `window.makeBlankerHTML`:
the launcher's original, or the module's wrapper around some function. -/
inductive FuncExpr where
  | base
  | wrap (g : FuncExpr)
  deriving DecidableEq

/-- Patcher-visible globals: the persisted `injectEnabled` flag,
`window.makeBlankerHTML` and the captured `window.__origMakeBlankerHTML`
(`none` models `undefined`). -/
structure PatchSt where
  injectEnabled : Bool
  winMake : Option FuncExpr
  origRef : Option FuncExpr
  deriving DecidableEq

/-- `patchMakeBlankerHTML` (lines 435-546): disabled restores the captured
original if one was saved; enabled captures the current function into
`__origMakeBlankerHTML` only when nothing is captured yet, then installs a
wrapper around the captured original (a no-op while the launcher has not
defined the function). -/
def patchMakeBlankerHTML (st : PatchSt) : PatchSt :=
  if !st.injectEnabled then
    match st.origRef with
    | some o => { st with winMake := some o }
    | none => st
  else
    let st1 :=
      match st.origRef, st.winMake with
      | none, some f => { st with origRef := some f }
      | _, _ => st
    match st1.origRef with
    | none => st1
    | some o => { st1 with winMake := some (.wrap o) }

/-- Events that reach the patcher: the toggle click handler
(lines 424-428) flips the flag and re-runs the patcher; the
`DOMContentLoaded` retry (line 569) re-runs it unchanged. -/
inductive PatchOp where
  | toggle
  | domReady

def patchStep (st : PatchSt) : PatchOp → PatchSt
  | .toggle => patchMakeBlankerHTML { st with injectEnabled := !st.injectEnabled }
  | .domReady => patchMakeBlankerHTML st

def runPatch (st : PatchSt) (ops : List PatchOp) : PatchSt :=
  ops.foldl patchStep st

/-! ### The injected agent markup (the template literal `inject`, lines 450-542) -/

/-- The part of the agent template before the interpolation
`JSON.stringify(title)` (literal braces and apostrophes are written with
`\x7b`, `\x7d` and `\x27` escapes). -/
def injectPartA : String :=
  "\n<style>\n  #sp-mini\x7bposition:fixed;bottom:10px;left:10px;z-index:99999;width:320px;max-height:260px;\n    display:flex;flex-direction:column;\n    background:rgba(4,10,28,.95);border:1px solid rgba(103,209,255,.3);border-radius:14px;\n    font-family:\x27Courier New\x27,monospace;font-size:.72rem;color:#c5d5ff;box-shadow:0 12px 36px rgba(0,0,0,.7);\n    backdrop-filter:blur(12px);overflow:hidden;transition:opacity .2s;\x7d\n  #sp-mini.sp-collapsed\x7bmax-height:36px;\x7d\n  #sp-mini-header\x7bdisplay:flex;align-items:center;justify-content:space-between;\n    padding:6px 10px;background:rgba(103,209,255,.08);border-bottom:1px solid rgba(255,255,255,.08);\n    cursor:pointer;flex-shrink:0;\x7d\n  #sp-mini-title\x7bfont-weight:700;color:#67d1ff;font-family:system-ui,sans-serif;\x7d\n  #sp-mini-btns\x7bdisplay:flex;gap:4px;\x7d\n  .sp-mini-btn\x7bpadding:2px 7px;border-radius:6px;border:1px solid rgba(255,255,255,.15);\n    background:rgba(255,255,255,.07);color:#e7f0ff;cursor:pointer;font-size:.7rem;\x7d\n  .sp-mini-btn:hover\x7bbackground:rgba(255,255,255,.15);\x7d\n  #sp-mini-logs\x7boverflow-y:auto;flex:1;padding:6px 8px;\x7d\n  #sp-mini-logs::-webkit-scrollbar\x7bwidth:4px;\x7d\n  #sp-mini-logs::-webkit-scrollbar-thumb\x7bbackground:rgba(103,209,255,.3);border-radius:4px;\x7d\n  .sp-ml\x7bpadding:2px 0;border-left:2px solid rgba(255,255,255,.15);padding-left:5px;margin-bottom:2px;word-break:break-all;\x7d\n  .sp-ml.e\x7bborder-color:#ff6e7a;color:#ffaaaf;\x7d .sp-ml.w\x7bborder-color:#ffd76e;color:#ffe9a0;\x7d\n  .sp-ml.i\x7bborder-color:#67d1ff;color:#a8e8ff;\x7d\n  #sp-mini-notes\x7bpadding:6px;border-top:1px solid rgba(255,255,255,.08);\x7d\n  #sp-mini-notes textarea\x7bwidth:100%;background:rgba(255,255,255,.06);border:1px solid rgba(255,255,255,.12);\n    border-radius:8px;color:#e7f0ff;font-family:\x27Courier New\x27,monospace;font-size:.72rem;\n    padding:5px;resize:none;outline:none;height:50px;\x7d\n  #sp-mini-notes textarea:focus\x7bborder-color:rgba(103,209,255,.5);\x7d\n</style>\n<div id=\"sp-mini\">\n  <div id=\"sp-mini-header\">\n    <span id=\"sp-mini-title\">💾 Console</span>\n    <div id=\"sp-mini-btns\">\n      <button class=\"sp-mini-btn\" id=\"sp-mini-notes-btn\">📝</button>\n      <button class=\"sp-mini-btn\" id=\"sp-mini-clear\">🗑</button>\n      <button class=\"sp-mini-btn\" id=\"sp-mini-toggle\">—</button>\n    </div>\n  </div>\n  <div id=\"sp-mini-logs\"></div>\n  <div id=\"sp-mini-notes\" style=\"display:none\">\n    <textarea placeholder=\"Notes / progress…\" id=\"sp-mini-notes-area\"></textarea>\n    <button class=\"sp-mini-btn\" id=\"sp-mini-save-note\" style=\"margin-top:3px;\">Save note</button>\n  </div>\n</div>\n<script>\n(function()\x7b\n  const el=document.getElementById(\x27sp-mini\x27);\n  const logs=document.getElementById(\x27sp-mini-logs\x27);\n  const gameTitle="

/-- The part of the agent template after the interpolation. -/
def injectPartB : String :=
  ";\n  const gameKey=\x27sp_blanker_\x27+encodeURIComponent(gameTitle);\n  let collapsed=false;\n  function addLog(lvl,msg)\x7b\n    const d=document.createElement(\x27div\x27);\n    d.className=\x27sp-ml \x27+(lvl===\x27error\x27?\x27e\x27:lvl===\x27warn\x27?\x27w\x27:lvl===\x27info\x27?\x27i\x27:\x27\x27);\n    d.textContent=new Date().toLocaleTimeString()+\x27 \x27+msg.slice(0,200);\n    logs.appendChild(d);\n    if(logs.children.length>80) logs.removeChild(logs.firstChild);\n    logs.scrollTop=logs.scrollHeight;\n    // Persist to parent localStorage via postMessage\n    try\x7bwindow.opener?.postMessage(\x7btype:\x27sp_log\x27,lvl,msg,gameTitle\x7d,\x27*\x27);\x7dcatch(e)\x7b\x7d\n  \x7d\n  [\x27log\x27,\x27warn\x27,\x27error\x27,\x27info\x27,\x27debug\x27].forEach(m=>\x7b\n    const orig=console[m].bind(console);\n    console[m]=function(...a)\x7borig(...a);addLog(m,a.map(x=>\x7btry\x7breturn typeof x===\x27object\x27?JSON.stringify(x):String(x);\x7dcatch(e)\x7breturn String(x);\x7d\x7d).join(\x27 \x27));\x7d;\n  \x7d);\n  window.addEventListener(\x27error\x27,e=>\x7baddLog(\x27error\x27,\x27Uncaught: \x27+e.message+\x27 (\x27+e.filename+\x27:\x27+e.lineno+\x27)\x27);\x7d);\n  window.addEventListener(\x27unhandledrejection\x27,e=>\x7baddLog(\x27error\x27,\x27Unhandled promise: \x27+e.reason);\x7d);\n\n  document.getElementById(\x27sp-mini-header\x27).addEventListener(\x27click\x27,e=>\x7b\n    if(e.target.closest(\x27#sp-mini-btns\x27)) return;\n    collapsed=!collapsed; el.classList.toggle(\x27sp-collapsed\x27,collapsed);\n    document.getElementById(\x27sp-mini-toggle\x27).textContent=collapsed?\x27+\x27:\x27—\x27;\n  \x7d);\n  document.getElementById(\x27sp-mini-toggle\x27).addEventListener(\x27click\x27,e=>\x7be.stopPropagation();collapsed=!collapsed;el.classList.toggle(\x27sp-collapsed\x27,collapsed);e.target.textContent=collapsed?\x27+\x27:\x27—\x27;\x7d);\n  document.getElementById(\x27sp-mini-clear\x27).addEventListener(\x27click\x27,()=>\x7blogs.innerHTML=\x27\x27;\x7d);\n  document.getElementById(\x27sp-mini-notes-btn\x27).addEventListener(\x27click\x27,()=>\x7b\n    const n=document.getElementById(\x27sp-mini-notes\x27);\n    n.style.display=n.style.display===\x27none\x27?\x27block\x27:\x27none\x27;\n    if(n.style.display===\x27block\x27)\x7b\n      const saved=localStorage.getItem(gameKey)||\x27\x27;\n      document.getElementById(\x27sp-mini-notes-area\x27).value=saved;\n    \x7d\n  \x7d);\n  document.getElementById(\x27sp-mini-save-note\x27).addEventListener(\x27click\x27,()=>\x7b\n    const txt=document.getElementById(\x27sp-mini-notes-area\x27).value;\n    localStorage.setItem(gameKey,txt);\n    try\x7bwindow.opener?.postMessage(\x7btype:\x27sp_note\x27,key:gameKey,txt,gameTitle\x7d,\x27*\x27);\x7dcatch(e)\x7b\x7d\n    document.getElementById(\x27sp-mini-save-note\x27).textContent=\x27✓ Saved!\x27;\n    setTimeout(()=>\x7bdocument.getElementById(\x27sp-mini-save-note\x27).textContent=\x27Save note\x27;\x7d,1500);\n  \x7d);\n  const saved=localStorage.getItem(gameKey);\n  if(saved) document.getElementById(\x27sp-mini-notes-area\x27).value=saved;\n\x7d)();\n</script>"

/-- The full agent markup for a given title. -/
def injectMarkup (title : String) : String :=
  injectPartA ++ jsonQuote title ++ injectPartB

/-- Calling the function in `window.makeBlankerHTML`, given the behavior `f`
of the launcher's original.  The wrapper (lines 448-545) forwards all three
arguments to the function it wraps and then replaces `"</body>"` in the
result by the agent markup followed by `"</body>"`. -/
def evalFunc (f : String → String → Bool → String) :
    FuncExpr → String → String → Bool → String
  | .base, title, src, autoFS => f title src autoFS
  | .wrap g, title, src, autoFS =>
      jsReplaceFirst (evalFunc f g title src autoFS) "</body>"
        (injectMarkup title ++ "</body>")

/-! ### The notes tab: debounced persistence (lines 342-409) -/

/-- The debounce window of `noteSaveTimer` (line 408). -/
def NOTE_DEBOUNCE_MS : Nat := 600

/-- A catalog entry of the launcher (`dbg_items_v6`). -/
structure Item where
  id : String
  title : String
  src : String

/-- Title resolution at record creation (lines 391-397): the catalog is
searched for the key; a falsy catalog title falls back to the key itself. -/
def resolveTitle (items : List Item) (k : String) : String :=
  match items.find? fun it => it.id == k with
  | some it => if it.title = "" then k else it.title
  | none => k

/-- The store effect of one `input` event on the notes area (lines 388-401),
together with whether the handler ran to completion (`false` when the
strict-mode property assignment on a truthy non-object record throws, in
which case the debounce timer is not rescheduled). -/
def noteApplyCore (items : List Item) (k : String) (text : String) (now : Nat)
    (store : List (String × JSVal)) : List (String × JSVal) × Bool :=
  let store1 :=
    if ((storeGet store k).getD .undefined).truthy then store
    else storeSet store k
      (.obj [("title", .str (resolveTitle items k)), ("notes", .str ""), ("ts", .num now)])
  match storeGet store1 k with
  | some v =>
    match jsSetProp v "notes" (.str text) with
    | some v1 => (storeSet store1 k ((jsSetProp v1 "ts" (.num now)).getD v1), true)
    | none => (store1, false)
  | none => (store1, false)

/-- The store effect alone. -/
def noteApply (items : List Item) (k : String) (text : String) (now : Nat)
    (store : List (String × JSVal)) : List (String × JSVal) :=
  (noteApplyCore items k text now store).1

/-- Notes-tab state: the in-memory registry, its persisted copy, the single
shared debounce timer (absolute deadline), the active key, and the list of
persistence writes performed so far (deadline, snapshot written). -/
structure NoteSt where
  notesStore : List (String × JSVal)
  persistedNotes : List (String × JSVal)
  noteSaveTimer : Option Nat
  currentNoteKey : Option String
  writes : List (Nat × List (String × JSVal))

/-- Events of the notes tab: a `change` of the game selector
(`loadNoteForKey`, lines 375-385) and an `input` on the text area
(lines 387-409). -/
inductive NEv where
  | select (key : String)
  | edit (text : String)

/-- Fires the debounced `saveNotes` (lines 403-408) when its deadline `d`
has been reached at time `t`: the whole in-memory registry is persisted in
one write and the timer is cleared. -/
def fireIfDue (s : NoteSt) (t : Nat) : NoteSt :=
  match s.noteSaveTimer with
  | some d =>
      if d ≤ t then
        { s with persistedNotes := s.notesStore,
                 writes := s.writes ++ [(d, s.notesStore)],
                 noteSaveTimer := none }
      else s
  | none => s

/-- One event.  `loadNoteForKey` only changes the active key (an empty
selector value maps to `null`); it does not touch the timer or the store.
An edit updates the record in memory, then `clearTimeout` + `setTimeout`
reschedule the one shared timer to `now + 600`. -/
def noteStep (items : List Item) (s : NoteSt) (now : Nat) : NEv → NoteSt
  | .select k => { s with currentNoteKey := if k = "" then none else some k }
  | .edit text =>
    match s.currentNoteKey with
    | none => s
    | some k =>
      let res := noteApplyCore items k text now s.notesStore
      if res.2 then
        { s with notesStore := res.1, noteSaveTimer := some (now + NOTE_DEBOUNCE_MS) }
      else { s with notesStore := res.1 }

/-- Runs a timed event trace; before each event the pending timer fires if
its deadline has passed. -/
def runNotes (items : List Item) : NoteSt → List (Nat × NEv) → NoteSt
  | s, [] => s
  | s, (t, e) :: rest => runNotes items (noteStep items (fireIfDue s t) t e) rest

/-- Quiescence at the end of a trace: a still-pending debounce fires. -/
def settleNotes (s : NoteSt) : NoteSt :=
  match s.noteSaveTimer with
  | some d =>
      { s with persistedNotes := s.notesStore,
               writes := s.writes ++ [(d, s.notesStore)],
               noteSaveTimer := none }
  | none => s

/-! ### Gap-based description of the debounce writes -/

/-- The writes performed while a deadline `d` is pending and the edits
`(t, x)` (all to key `k`) keep arriving: an edit at `t ≥ d` lets the pending
window complete first; every edit reschedules the deadline to `t + 600`;
the final pending window always completes. -/
def pendingWrites (items : List Item) (k : String)
    (store : List (String × JSVal)) (d : Nat) :
    List (Nat × String) → List (Nat × List (String × JSVal))
  | [] => [(d, store)]
  | (t, x) :: rest =>
      (if d ≤ t then [(d, store)] else []) ++
        pendingWrites items k (noteApply items k x t store) (t + NOTE_DEBOUNCE_MS) rest

/-- The debounce writes produced by a sequence of edits to key `k` starting
from a quiescent state. -/
def debounceWrites (items : List Item) (k : String)
    (store : List (String × JSVal)) :
    List (Nat × String) → List (Nat × List (String × JSVal))
  | [] => []
  | (t, x) :: rest =>
      pendingWrites items k (noteApply items k x t store) (t + NOTE_DEBOUNCE_MS) rest

/-- All edit times are nondecreasing starting from `tp` and each arrives
strictly before a full debounce window has elapsed since the previous
edit. -/
def withinFrom (tp : Nat) : List (Nat × String) → Bool
  | [] => true
  | (t, _) :: rest =>
      decide (tp ≤ t) && decide (t < tp + NOTE_DEBOUNCE_MS) && withinFrom t rest

/-- Each successive gap of the edit sequence lies inside the debounce
window (and the edit times are nondecreasing). -/
def gapsWithin : List (Nat × String) → Bool
  | [] => true
  | (t, _) :: rest => withinFrom t rest

/-- Time of the last edit (`t0` for the empty sequence). -/
def lastTime (t0 : Nat) : List (Nat × String) → Nat
  | [] => t0
  | (t, _) :: rest => lastTime t rest

/-- Text of the last edit (`x0` for the empty sequence). -/
def lastText (x0 : String) : List (Nat × String) → String
  | [] => x0
  | (_, x) :: rest => lastText x rest

/-- A slot of the notes store on which an edit completes: absent / falsy
(the record is then freshly created) or a proper object record. -/
def slotOK (v : JSVal) : Bool := !v.truthy || v.isObj

/-- Every value of the store is an object record. -/
def storeWF (store : List (String × JSVal)) : Bool :=
  store.all fun p => p.2.isObj

/-! Multi-key edit sequences (time, key, text), as produced by selecting a
key and then typing into the notes area. -/

def multiTrace : List (Nat × String × String) → List (Nat × NEv)
  | [] => []
  | (t, k, x) :: rest => (t, .select k) :: (t, .edit x) :: multiTrace rest

def foldEdits (items : List Item) (store : List (String × JSVal)) :
    List (Nat × String × String) → List (String × JSVal)
  | [] => store
  | (t, k, x) :: rest => foldEdits items (noteApply items k x t store) rest

def lastTimeT (t0 : Nat) : List (Nat × String × String) → Nat
  | [] => t0
  | (t, _, _) :: rest => lastTimeT t rest

def withinFromT (tp : Nat) : List (Nat × String × String) → Bool
  | [] => true
  | (t, _, _) :: rest =>
      decide (tp ≤ t) && decide (t < tp + NOTE_DEBOUNCE_MS) && withinFromT t rest

def keysOKT : List (Nat × String × String) → Bool
  | [] => true
  | (_, k, _) :: rest => (k != "") && keysOKT rest

/-! ## Supporting lemmas -/

theorem storeGet_storeSet_self (l : List (String × JSVal)) (k : String) (v : JSVal) :
    storeGet (storeSet l k v) k = some v := by
  induction l with
  | nil => simp [storeGet, storeSet]
  | cons p rest ih =>
    by_cases h : p.1 = k
    · simp [storeSet, storeGet, h]
    · simp [storeSet, storeGet, h, ih]

theorem storeGet_storeSet_ne (l : List (String × JSVal)) (k k' : String) (v : JSVal)
    (h : k' ≠ k) : storeGet (storeSet l k' v) k = storeGet l k := by
  induction l with
  | nil => simp [storeGet, storeSet, h]
  | cons p rest ih =>
    by_cases h1 : p.1 = k'
    · simp [storeSet, storeGet, h1, h]
    · simp [storeSet, storeGet, h1, ih]

theorem storeSet_storeSet_self (l : List (String × JSVal)) (k : String) (v w : JSVal) :
    storeSet (storeSet l k v) k w = storeSet l k w := by
  induction l with
  | nil => simp [storeSet]
  | cons p rest ih =>
    by_cases h : p.1 = k
    · simp [storeSet, h]
    · simp [storeSet, h, ih]

theorem rtake_append_rtake {α : Type} (l m : List α) (n : Nat) :
    (List.rtake (List.rtake l n ++ m) n) = List.rtake (l ++ m) n := by
  have h1 : ∀ x : List α, List.rtake x n = (x.reverse.take n).reverse := fun x =>
    List.rtake_eq_reverse_take_reverse x n
  rw [h1, h1, h1, List.reverse_append, List.reverse_reverse, List.reverse_append]
  congr 1
  rw [List.take_append_eq_append_take, List.take_append_eq_append_take, List.take_take]
  congr 2
  exact Nat.min_eq_left (Nat.sub_le _ _)

theorem appendLog_eq_rtake (buf : List JSVal) (e : JSVal) :
    appendLog buf e = (buf ++ [e]).drop ((buf ++ [e]).length - MAX_LOGS) := by
  unfold appendLog
  split
  · rfl
  · rename_i h
    rw [Nat.sub_eq_zero_of_le (Nat.le_of_not_lt h), List.drop_zero]

theorem appendLog_length_le (buf : List JSVal) (e : JSVal) :
    (appendLog buf e).length ≤ MAX_LOGS := by
  rw [appendLog_eq_rtake]
  simp only [List.length_drop]
  omega

theorem foldl_appendLog (es : List JSVal) : ∀ buf : List JSVal, es ≠ [] →
    es.foldl appendLog buf = (buf ++ es).drop ((buf ++ es).length - MAX_LOGS) := by
  induction es with
  | nil => intro buf h; exact absurd rfl h
  | cons e rest ih =>
    intro buf _
    rcases rest with _ | ⟨e2, rest2⟩
    · simpa using appendLog_eq_rtake buf e
    · have hne : (e2 :: rest2) ≠ [] := by simp
      calc ((e :: e2 :: rest2).foldl appendLog buf)
          = (e2 :: rest2).foldl appendLog (appendLog buf e) := by simp
        _ = ((appendLog buf e) ++ (e2 :: rest2)).drop
              (((appendLog buf e) ++ (e2 :: rest2)).length - MAX_LOGS) := ih _ hne
        _ = ((buf ++ [e]) ++ (e2 :: rest2)).drop
              (((buf ++ [e]) ++ (e2 :: rest2)).length - MAX_LOGS) := by
              rw [appendLog_eq_rtake buf e]
              exact rtake_append_rtake (buf ++ [e]) (e2 :: rest2) MAX_LOGS
        _ = (buf ++ (e :: e2 :: rest2)).drop
              ((buf ++ (e :: e2 :: rest2)).length - MAX_LOGS) := by simp

/-! ## C1 -/

/-- C1 (amended): the two append operations (console interceptor and
`sp_log` relay) and the clear operation keep the buffer at no more than
`MAX_LOGS = 400` entries; an append keeps exactly the trailing entries of
the append sequence, removing the excess from the front, and this holds for
arbitrary append sequences.  (Import is excluded: see the counterexample.) -/
theorem c1_buffer_bound :
    (∀ (buf : List JSVal) (e : JSVal),
        (appendLog buf e).length ≤ MAX_LOGS ∧
        appendLog buf e = (buf ++ [e]).drop ((buf ++ [e]).length - MAX_LOGS)) ∧
    (∀ (buf : List JSVal) (es : List JSVal), es ≠ [] →
        es.foldl appendLog buf = (buf ++ es).drop ((buf ++ es).length - MAX_LOGS)) ∧
    (∀ (st : HubSt) (m : String) (args : List JSVal) (now : Int),
        (consoleCall m args now st).consoleLogs =
          appendLog st.consoleLogs
            (mkLogEntry now (.str m) (String.intercalate " " (args.map stringifyArg)))) ∧
    (∀ (st : HubSt) (now : Int) (lvl msg gt : JSVal),
        (onMessage (.obj [("type", .str "sp_log"), ("lvl", lvl), ("msg", msg),
            ("gameTitle", gt)]) now st).consoleLogs =
          appendLog st.consoleLogs
            (mkLogEntry now lvl ("[" ++ jsToStr gt ++ "] " ++ jsToStr msg))) ∧
    (∀ st : HubSt, (clearLogs st).consoleLogs = []) := by
  refine ⟨fun buf e => ⟨appendLog_length_le buf e, appendLog_eq_rtake buf e⟩,
    fun buf es h => foldl_appendLog es buf h, fun _ _ _ _ => rfl, fun _ _ _ _ _ => rfl,
    fun _ => rfl⟩

/-- Witness for `c1_buffer_bound`: the hypothesis of the fold part holds at
a singleton append sequence. -/
theorem c1_buffer_bound_witness :
    ([JSVal.num 3] ≠ ([] : List JSVal)) ∧
    [JSVal.num 3].foldl appendLog [] =
      (([] : List JSVal) ++ [JSVal.num 3]).drop
        ((([] : List JSVal) ++ [JSVal.num 3]).length - MAX_LOGS) :=
  ⟨by simp, c1_buffer_bound.2.1 [] [JSVal.num 3] (by simp)⟩

/-- C1 counterexample: importing a payload whose `consoleLogs` array has 401
entries leaves the in-memory buffer at 401 entries — the import handler
replaces the buffer without truncating, so the stated bound fails
for the import operation. -/
theorem c1_counterexample :
    MAX_LOGS <
      ((importHandler
          (some (.obj [("consoleLogs", .arr (List.replicate 401 (.num 0)))]))
          ⟨[], [], [], []⟩).1).consoleLogs.length := by
  have h : ((importHandler
      (some (.obj [("consoleLogs", .arr (List.replicate 401 (.num 0)))]))
      ⟨[], [], [], []⟩).1).consoleLogs = List.replicate 401 (.num 0) := rfl
  rw [h, List.length_replicate]
  decide

/-! ## C9 -/

/-- C9 counterexample: the exported object has no `exportedAt` key; its
keys are `exported`, `version`, `notes`, `consoleLogs`. -/
theorem c9_counterexample :
    jsGet (spDlAll "2026-01-01T00:00:00.000Z" ⟨[], [], [], []⟩) "exportedAt" =
      JSVal.undefined ∧
    objKeys (spDlAll "2026-01-01T00:00:00.000Z" ⟨[], [], [], []⟩) =
      ["exported", "version", "notes", "consoleLogs"] := ⟨rfl, rfl⟩

/-- C9 (amended): every export of the full save produces an object of
exactly the shape `\x7b exported, version, notes, consoleLogs \x7d` with the
timestamp string under `exported`, the integer version `1`, the registry
mapping under `notes` and the ordered log sequence under `consoleLogs`. -/
theorem c9_export_shape (nowIso : String) (st : HubSt) :
    objKeys (spDlAll nowIso st) = ["exported", "version", "notes", "consoleLogs"] ∧
    jsGet (spDlAll nowIso st) "exported" = .str nowIso ∧
    jsGet (spDlAll nowIso st) "version" = .num 1 ∧
    jsGet (spDlAll nowIso st) "notes" = .obj st.notesStore ∧
    jsGet (spDlAll nowIso st) "consoleLogs" = .arr st.consoleLogs :=
  ⟨rfl, rfl, rfl, rfl, rfl⟩

/-! ## C3 -/

/-- Invariant of the patcher: the captured original is only ever the
launcher's function, and the installed function is either the original or a
single wrapper around it (never a wrapper around a wrapper). -/
def PatchInv (s : PatchSt) : Prop :=
  (s.origRef = none ∧ s.winMake = some .base) ∨
  (s.origRef = some .base ∧
    (s.winMake = some .base ∨ s.winMake = some (.wrap .base)))

theorem patchMakeBlankerHTML_inv (s : PatchSt) (h : PatchInv s) :
    PatchInv (patchMakeBlankerHTML s) := by
  obtain ⟨en, win, orig⟩ := s
  rcases h with ⟨h1, h2⟩ | ⟨h1, h2 | h2⟩ <;>
    simp only at h1 h2 <;> subst h1 <;> subst h2 <;>
    cases en <;> simp [patchMakeBlankerHTML, PatchInv]

theorem patchStep_inv (s : PatchSt) (op : PatchOp) (h : PatchInv s) :
    PatchInv (patchStep s op) := by
  cases op with
  | toggle =>
    apply patchMakeBlankerHTML_inv
    obtain ⟨en, win, orig⟩ := s
    exact h
  | domReady => exact patchMakeBlankerHTML_inv s h

theorem runPatch_inv (ops : List PatchOp) : ∀ s : PatchSt, PatchInv s →
    PatchInv (runPatch s ops) := by
  induction ops with
  | nil => intro s h; exact h
  | cons op rest ih =>
    intro s h
    exact ih (patchStep s op) (patchStep_inv s op h)

/-- C3 (confirmed): starting from an unpatched state with the launcher
function available, enabling wraps the original, disabling reinstates
exactly the captured original (so the installed function is byte-for-byte
the unpatched one), and re-enabling wraps that same captured original again;
moreover along any sequence of toggle / `DOMContentLoaded` events the
captured reference is only ever the original and the installed function is
never a double wrapper. -/
theorem c3_patch_roundtrip :
    (runPatch ⟨false, some .base, none⟩ [.toggle] =
      ⟨true, some (.wrap .base), some .base⟩) ∧
    (runPatch ⟨false, some .base, none⟩ [.toggle, .toggle] =
      ⟨false, some .base, some .base⟩) ∧
    (∀ f : String → String → Bool → String, ∀ t s a,
      evalFunc f .base t s a = f t s a) ∧
    (runPatch ⟨false, some .base, none⟩ [.toggle, .toggle, .toggle] =
      ⟨true, some (.wrap .base), some .base⟩) ∧
    (∀ ops : List PatchOp,
      ((runPatch ⟨false, some .base, none⟩ ops).origRef = none ∨
       (runPatch ⟨false, some .base, none⟩ ops).origRef = some .base) ∧
      ((runPatch ⟨false, some .base, none⟩ ops).winMake = some .base ∨
       (runPatch ⟨false, some .base, none⟩ ops).winMake = some (.wrap .base))) := by
  refine ⟨rfl, rfl, fun _ _ _ _ => rfl, rfl, fun ops => ?_⟩
  have h := runPatch_inv ops ⟨false, some .base, none⟩ (Or.inl ⟨rfl, rfl⟩)
  rcases h with ⟨h1, h2⟩ | ⟨h1, h2⟩
  · exact ⟨Or.inl h1, Or.inl h2⟩
  · exact ⟨Or.inr h1, h2⟩

/-! ## C7 -/

/-- C7 (amended): inbound messages that are not truthy object-typed values,
or whose `type` field is neither `"sp_log"` nor `"sp_note"`, are ignored
silently — the entire module state (log buffer, note registry and both
persisted copies) is unchanged and nothing is reported.  (Messages carrying
a recognized `type` are processed even when their other fields are missing:
see the counterexample.) -/
theorem c7_relay_ignores (st : HubSt) (now : Int) (data : JSVal)
    (h : data.truthy = false ∨ data.typeofObject = false ∨
         (jsGet data "type" ≠ .str "sp_log" ∧ jsGet data "type" ≠ .str "sp_note")) :
    onMessage data now st = st := by
  rcases h with h | h | ⟨hA, hB⟩
  · simp [onMessage, h]
  · simp [onMessage, h]
  · unfold onMessage
    by_cases hb : (!data.truthy || !data.typeofObject) = true
    · simp [hb]
    · have hbf : (!data.truthy || !data.typeofObject) = false := Bool.eq_false_iff.mpr hb
      have ht1 : ∀ t : String, jsGet data "type" = .str t → t ≠ "sp_log" := by
        intro t hv hc
        exact hA (by rw [hv, hc])
      have ht2 : ∀ t : String, jsGet data "type" = .str t → t ≠ "sp_note" := by
        intro t hv hc
        exact hB (by rw [hv, hc])
      rcases hv : jsGet data "type" with _ | _ | b | n | t | l | o
      · simp [hbf, hv]
      · simp [hbf, hv]
      · simp [hbf, hv]
      · simp [hbf, hv]
      · simp [hbf, hv, ht1 t hv, ht2 t hv]
      · simp [hbf, hv]
      · simp [hbf, hv]

/-- Witness for `c7_relay_ignores`: a numeric message is dropped without any
state change. -/
theorem c7_relay_ignores_witness :
    (JSVal.num 3).typeofObject = false ∧
    onMessage (.num 3) 0 ⟨[], [], [], []⟩ = ⟨[], [], [], []⟩ :=
  ⟨rfl, c7_relay_ignores ⟨[], [], [], []⟩ 0 (.num 3) (Or.inr (Or.inl rfl))⟩

/-- C7 counterexample: the object `\x7b type: "sp_log" \x7d` is not a
well-formed `LogRelay` (it has no `lvl`, `msg` or `gameTitle` field), yet
the relay appends the entry `"[undefined] undefined"` to the previously
empty log buffer instead of ignoring the message. -/
theorem c7_counterexample :
    (onMessage (.obj [("type", .str "sp_log")]) 5 ⟨[], [], [], []⟩).consoleLogs =
      [mkLogEntry 5 .undefined "[undefined] undefined"] ∧
    (onMessage (.obj [("type", .str "sp_log")]) 5 ⟨[], [], [], []⟩).consoleLogs ≠
      (⟨[], [], [], []⟩ : HubSt).consoleLogs := by
  refine ⟨rfl, fun hc => ?_⟩
  exact List.noConfusion hc

/-! ## C8 -/

/-- A well-formed `sp_note` relay message. -/
def noteRelayMsg (k title text : String) : JSVal :=
  .obj [("type", .str "sp_note"), ("key", .str k), ("gameTitle", .str title),
        ("txt", .str text)]

/-- C8 (confirmed): a `NoteRelay` for a key with no existing record creates
one whose `title` is the relayed title and whose `notes` text is the relayed
text; for a key with an existing record the `notes` text and `ts` are
overwritten unconditionally and the existing `title` binding is kept. -/
theorem c8_note_relay (st : HubSt) (now : Int) (k title text : String) :
    (storeGet st.notesStore k = none →
       (onMessage (noteRelayMsg k title text) now st).notesStore =
         storeSet st.notesStore k
           (.obj [("title", .str title), ("notes", .str text), ("ts", .num now)])) ∧
    (∀ fields : List (String × JSVal), storeGet st.notesStore k = some (.obj fields) →
       (onMessage (noteRelayMsg k title text) now st).notesStore =
         storeSet st.notesStore k
           (.obj (storeSet (storeSet fields "notes" (.str text)) "ts" (.num now))) ∧
       storeGet (storeSet (storeSet fields "notes" (.str text)) "ts" (.num now)) "title" =
         storeGet fields "title") := by
  have hred : onMessage (noteRelayMsg k title text) now st =
      spNoteBranch (noteRelayMsg k title text) now st := rfl
  have hkey : jsToStr (jsGet (noteRelayMsg k title text) "key") = k := rfl
  have htitle : jsGet (noteRelayMsg k title text) "gameTitle" = .str title := rfl
  have htxt : jsGet (noteRelayMsg k title text) "txt" = .str text := rfl
  constructor
  · intro h
    rw [hred]
    simp only [spNoteBranch, hkey, htitle, htxt, h]
    simp only [Option.getD_none, JSVal.truthy, Bool.false_eq_true, if_false]
    rw [storeGet_storeSet_self]
    simp [jsSetProp, storeSet, storeSet_storeSet_self]
  · intro fields h
    rw [hred]
    simp only [spNoteBranch, hkey, htitle, htxt, h, Option.getD_some, JSVal.truthy,
      if_true, jsSetProp]
    refine ⟨trivial, ?_⟩
    rw [storeGet_storeSet_ne _ _ _ _ (by decide), storeGet_storeSet_ne _ _ _ _ (by decide)]

/-- Witness for `c8_note_relay`: overwriting an existing record keeps its
title and replaces its text. -/
theorem c8_note_relay_witness :
    storeGet (⟨[], [("g", .obj [("title", .str "G"), ("notes", .str "old"),
        ("ts", .num 1)])], [], []⟩ : HubSt).notesStore "g" =
      some (.obj [("title", .str "G"), ("notes", .str "old"), ("ts", .num 1)]) ∧
    ((onMessage (noteRelayMsg "g" "T" "new") 5
        ⟨[], [("g", .obj [("title", .str "G"), ("notes", .str "old"),
          ("ts", .num 1)])], [], []⟩).notesStore =
      storeSet [("g", .obj [("title", .str "G"), ("notes", .str "old"), ("ts", .num 1)])]
        "g" (.obj (storeSet (storeSet [("title", .str "G"), ("notes", .str "old"),
          ("ts", .num 1)] "notes" (.str "new")) "ts" (.num 5))) ∧
     storeGet (storeSet (storeSet [("title", .str "G"), ("notes", .str "old"),
         ("ts", .num 1)] "notes" (.str "new")) "ts" (.num 5)) "title" =
       storeGet [("title", .str "G"), ("notes", .str "old"), ("ts", .num 1)] "title") :=
  ⟨rfl, (c8_note_relay _ 5 "g" "T" "new").2 _ rfl⟩

/-! ## C2 -/

/-- C2 (amended): importing a payload whose `consoleLogs` field is absent
leaves the log buffer unchanged; importing one whose `notes` field is absent
leaves the note registry unchanged; a payload that fails to parse leaves the
whole state unchanged and reports exactly one user-facing failure.
(The import is not all-or-nothing for every malformed payload: see the
counterexample.) -/
theorem c2_import_isolation (st : HubSt) (data : JSVal) :
    (jsGet data "consoleLogs" = .undefined →
       (importHandler (some data) st).1.consoleLogs = st.consoleLogs) ∧
    (jsGet data "notes" = .undefined →
       (importHandler (some data) st).1.notesStore = st.notesStore) ∧
    importHandler none st = (st, [importAlertFail]) := by
  refine ⟨?_, ?_, rfl⟩
  · intro h
    rcases data with _ | _ | b | n | s | l | fields
    · rfl
    · rfl
    · simp [importHandler, jsGet, JSVal.truthy]
    · simp [importHandler, jsGet, JSVal.truthy]
    · simp [importHandler, jsGet, JSVal.truthy]
    · simp [importHandler, jsGet, JSVal.truthy]
    · simp only [importHandler, h, JSVal.truthy, Bool.false_eq_true, if_false]
      split
      · rfl
      · rfl
  · intro h
    rcases data with _ | _ | b | n | s | l | fields
    · rfl
    · rfl
    · simp [importHandler, jsGet, JSVal.truthy]
    · simp [importHandler, jsGet, JSVal.truthy]
    · simp [importHandler, jsGet, JSVal.truthy]
    · simp [importHandler, jsGet, JSVal.truthy]
    · simp only [importHandler, h, JSVal.truthy, Bool.false_eq_true, if_false]
      split
      · split
        · rfl
        · rfl
      · rfl

/-- Witness for `c2_import_isolation`: a payload with notes but no
`consoleLogs` field leaves a nonempty log buffer untouched. -/
theorem c2_import_isolation_witness :
    jsGet (.obj [("notes", .obj [("a", .num 1)])]) "consoleLogs" = JSVal.undefined ∧
    (importHandler (some (.obj [("notes", .obj [("a", .num 1)])]))
        ⟨[mkLogEntry 1 (.str "log") "x"], [], [], []⟩).1.consoleLogs =
      (⟨[mkLogEntry 1 (.str "log") "x"], [], [], []⟩ : HubSt).consoleLogs :=
  ⟨rfl, (c2_import_isolation ⟨[mkLogEntry 1 (.str "log") "x"], [], [], []⟩
    (.obj [("notes", .obj [("a", .num 1)])])).1 rfl⟩

/-- C2 counterexample: the parseable payload
`\x7b notes: \x7b g: 7 \x7d, consoleLogs: 5 \x7d` merges `notes` into the
registry and empties the log buffer before the spread of the non-iterable
`consoleLogs` value throws, and the caught error is reported as the usual
single failure — a partial import: both the registry and the buffer changed
although the import failed. -/
theorem c2_counterexample :
    importHandler (some (.obj [("notes", .obj [("g", .num 7)]), ("consoleLogs", .num 5)]))
        ⟨[mkLogEntry 1 (.str "log") "x"], [], [mkLogEntry 1 (.str "log") "x"], []⟩ =
      (⟨[], [("g", .num 7)], [mkLogEntry 1 (.str "log") "x"], []⟩, [importAlertFail]) ∧
    ([] : List JSVal) ≠ [mkLogEntry 1 (.str "log") "x"] ∧
    ([("g", JSVal.num 7)] : List (String × JSVal)) ≠ [] := by
  refine ⟨rfl, fun hc => List.noConfusion hc, fun hc => List.noConfusion hc⟩

/-! ## C6 -/

theorem splitOnFirst_sound (pat : List Char) :
    ∀ (l pre post : List Char), splitOnFirst pat l = some (pre, post) →
      l = pre ++ pat ++ post := by
  intro l
  induction l with
  | nil =>
    intro pre post h
    unfold splitOnFirst at h
    by_cases hp : pat = []
    · subst hp
      rw [if_pos rfl] at h
      simp only [Option.some.injEq, Prod.mk.injEq] at h
      obtain ⟨h1, h2⟩ := h
      subst h1; subst h2; rfl
    · rw [if_neg hp] at h
      exact Option.noConfusion h
  | cons c rest ih =>
    intro pre post h
    unfold splitOnFirst at h
    by_cases hp : pat.isPrefixOf (c :: rest)
    · rw [if_pos hp] at h
      obtain ⟨h1, h2⟩ := Prod.mk.injEq .. ▸ Option.some.injEq .. ▸ h
      have hpre : pat <+: (c :: rest) := List.isPrefixOf_iff_prefix.mp hp
      obtain ⟨tail, htail⟩ := hpre
      subst h1
      rw [← htail] at h2 ⊢
      rw [List.drop_left] at h2
      rw [← h2]
      simp
    · rw [if_neg hp] at h
      rcases hrec : splitOnFirst pat rest with _ | ⟨q1, q2⟩
      · rw [hrec] at h
        exact Option.noConfusion h
      · rw [hrec] at h
        have h' : (c :: q1, q2) = (pre, post) := Option.some.inj h
        have h1 : pre = c :: q1 := (congrArg Prod.fst h').symm
        have h2 : post = q2 := (congrArg Prod.snd h').symm
        rw [h1, h2, ih q1 q2 hrec]
        simp

theorem expandRepl_no_dollar (m pre post : List Char) :
    ∀ repl : List Char, ('$' ∉ repl) → expandRepl m pre post repl = repl := by
  intro repl
  induction repl with
  | nil => intro _; rfl
  | cons c rest ih =>
    intro h
    have hc : ¬ (c = '$') := fun hh => h (by rw [hh]; exact List.mem_cons_self '$' rest)
    have hrest : '$' ∉ rest := fun hm => h (List.mem_cons_of_mem _ hm)
    unfold expandRepl
    rw [if_neg hc, ih hrest]

/-- C6 (amended): the wrapped factory forwards all three arguments unchanged
to the captured original; when the original output contains the end-of-body
marker, the result is that output with the agent markup inserted immediately
before the first occurrence of the marker and every other byte preserved
(for titles whose markup contains no `$`-substitution pattern, which holds
for any title without a dollar character); when the marker is absent, the
original output is returned unchanged — and then contains no agent. -/
theorem c6_wrapped_factory (f : String → String → Bool → String)
    (t s : String) (a : Bool) (pre post : List Char)
    (hsplit : splitOnFirst "</body>".data (f t s a).data = some (pre, post))
    (hd : '$' ∉ (injectMarkup t ++ "</body>").data) :
    evalFunc f (.wrap .base) t s a =
      String.mk (pre ++ ((injectMarkup t).data ++ "</body>".data) ++ post) ∧
    (f t s a).data = pre ++ "</body>".data ++ post := by
  constructor
  · show jsReplaceFirst (f t s a) "</body>" (injectMarkup t ++ "</body>") = _
    unfold jsReplaceFirst
    rw [hsplit]
    show String.mk
        (pre ++ expandRepl "</body>".data pre post (injectMarkup t ++ "</body>").data
          ++ post) = _
    rw [expandRepl_no_dollar _ _ _ _ hd, String.data_append]
  · exact splitOnFirst_sound _ _ _ _ hsplit

/-- Witness for `c6_wrapped_factory`: a body-closing original output has the
agent markup inserted right before the marker. -/
theorem c6_wrapped_factory_witness :
    splitOnFirst "</body>".data
        (((fun (_ _ : String) (_ : Bool) => "<body>x</body>") "T" "s" false).data) =
      some ("<body>x".data, ([] : List Char)) ∧
    ('$' ∉ (injectMarkup "T" ++ "</body>").data) ∧
    evalFunc (fun _ _ _ => "<body>x</body>") (.wrap .base) "T" "s" false =
      String.mk ("<body>x".data ++ ((injectMarkup "T").data ++ "</body>".data) ++
        ([] : List Char)) :=
  ⟨rfl, by decide,
    (c6_wrapped_factory (fun _ _ _ => "<body>x</body>") "T" "s" false
      "<body>x".data [] rfl (by decide)).1⟩

/-- C6 counterexample: when the original factory output contains no
`</body>` marker, the wrapped factory returns it unchanged, so the produced
document does not contain the capture agent (whose markup carries the
`sp-mini` panel) — refuting "every document the wrapped factory produces
contains the capture agent". -/
theorem c6_counterexample :
    evalFunc (fun _ _ _ => "<html></html>") (.wrap .base) "T" "s" false =
      "<html></html>" ∧
    ¬ List.IsInfix "sp-mini".data "<html></html>".data ∧
    List.IsInfix "sp-mini".data (injectMarkup "T").data := by
  refine ⟨rfl, by decide, by decide⟩

/-! ## Record-level lemmas about the edit handler -/

theorem slotOK_of_isObj (v : JSVal) (h : v.isObj = true) : slotOK v = true := by
  unfold slotOK
  rw [h]
  simp

theorem storeWF_slotOK (k : String) :
    ∀ store : List (String × JSVal), storeWF store = true →
      slotOK ((storeGet store k).getD .undefined) = true := by
  intro store
  induction store with
  | nil => intro _; rfl
  | cons p rest ih =>
    intro h
    rw [storeWF, List.all_cons, Bool.and_eq_true] at h
    obtain ⟨h1, h2⟩ := h
    obtain ⟨k1, v1⟩ := p
    by_cases hk : k1 = k
    · simp only [storeGet, hk, if_pos rfl, Option.getD_some]
      exact slotOK_of_isObj v1 h1
    · simp only [storeGet, if_neg hk]
      exact ih h2

theorem storeWF_storeSet (k : String) (v : JSVal) (hv : v.isObj = true) :
    ∀ store : List (String × JSVal), storeWF store = true →
      storeWF (storeSet store k v) = true := by
  intro store
  induction store with
  | nil =>
    intro _
    simp [storeSet, storeWF, hv]
  | cons p rest ih =>
    intro h
    rw [storeWF, List.all_cons, Bool.and_eq_true] at h
    obtain ⟨h1, h2⟩ := h
    obtain ⟨k1, v1⟩ := p
    by_cases hk : k1 = k
    · simp only [storeSet, if_pos hk]
      simp [storeWF, List.all_cons, hv, h2]
    · simp only [storeSet, if_neg hk]
      rw [storeWF, List.all_cons, Bool.and_eq_true]
      exact ⟨h1, ih h2⟩

/-- On a slot that is absent, falsy or an object record, one edit completes
(`TypeError`-free), leaves an object record under `k` whose `notes` text is
the typed text. -/
theorem noteApplyCore_ok (items : List Item) (k x : String) (now : Nat)
    (store : List (String × JSVal))
    (h : slotOK ((storeGet store k).getD .undefined) = true) :
    (noteApplyCore items k x now store).2 = true ∧
    ∃ fields, storeGet (noteApplyCore items k x now store).1 k = some (.obj fields) ∧
      storeGet fields "notes" = some (.str x) := by
  by_cases ht : ((storeGet store k).getD JSVal.undefined).truthy = true
  · have hobj : ((storeGet store k).getD JSVal.undefined).isObj = true := by
      unfold slotOK at h
      rw [ht] at h
      simpa using h
    rcases hv : storeGet store k with _ | v
    · rw [hv] at ht
      simp [JSVal.truthy] at ht
    · rw [hv] at hobj
      simp only [Option.getD_some] at hobj
      rcases v with _ | _ | b | n | s | l | fields
      · simp [JSVal.isObj] at hobj
      · simp [JSVal.isObj] at hobj
      · simp [JSVal.isObj] at hobj
      · simp [JSVal.isObj] at hobj
      · simp [JSVal.isObj] at hobj
      · simp [JSVal.isObj] at hobj
      · simp only [noteApplyCore, hv, Option.getD_some, JSVal.truthy, if_true, jsSetProp]
        refine ⟨trivial, storeSet (storeSet fields "notes" (.str x)) "ts" (.num now), ?_, ?_⟩
        · rw [storeGet_storeSet_self]
        · rw [storeGet_storeSet_ne _ _ _ _ (by decide), storeGet_storeSet_self]
  · have hf : ((storeGet store k).getD JSVal.undefined).truthy = false :=
      Bool.eq_false_iff.mpr ht
    simp only [noteApplyCore, hf, Bool.false_eq_true, if_false]
    rw [storeGet_storeSet_self]
    simp only [jsSetProp, Option.getD_some]
    refine ⟨trivial, ?_⟩
    rw [storeGet_storeSet_self]
    exact ⟨_, rfl, by simp [storeSet, storeGet]⟩

/-- A failing edit leaves the store unchanged. -/
theorem noteApplyCore_fail (items : List Item) (k x : String) (now : Nat)
    (store : List (String × JSVal))
    (h : (noteApplyCore items k x now store).2 = false) :
    (noteApplyCore items k x now store).1 = store := by
  by_cases ht : ((storeGet store k).getD JSVal.undefined).truthy = true
  · rcases hv : storeGet store k with _ | v
    · rw [hv] at ht
      simp [JSVal.truthy] at ht
    · rw [hv] at ht
      simp only [Option.getD_some] at ht
      rcases v with _ | _ | b | n | s | l | fields
      · simp [JSVal.truthy] at ht
      · simp [JSVal.truthy] at ht
      · simp only [noteApplyCore, hv, Option.getD_some, ht, if_true, jsSetProp]
      · simp only [noteApplyCore, hv, Option.getD_some, ht, if_true, jsSetProp]
      · simp only [noteApplyCore, hv, Option.getD_some, ht, if_true, jsSetProp]
      · simp only [noteApplyCore, hv, Option.getD_some, ht, if_true, jsSetProp] at h
        exact absurd h (by simp)
      · simp only [noteApplyCore, hv, Option.getD_some, ht, if_true, jsSetProp] at h
        exact absurd h (by simp)
  · have hf := Bool.eq_false_iff.mpr ht
    simp only [noteApplyCore, hf, Bool.false_eq_true, if_false] at h
    rw [storeGet_storeSet_self] at h
    simp [jsSetProp] at h

/-- An edit to key `k` does not change the binding of any other key. -/
theorem noteApply_get_other (items : List Item) (k x : String) (now : Nat)
    (store : List (String × JSVal)) (q : String) (h : k ≠ q) :
    storeGet (noteApply items k x now store) q = storeGet store q := by
  unfold noteApply noteApplyCore
  by_cases ht : ((storeGet store k).getD JSVal.undefined).truthy = true
  · simp only [ht, if_true]
    rcases hv : storeGet store k with _ | v
    · rfl
    · rcases v with _ | _ | b | n | s | l | fields <;>
        simp [jsSetProp, storeGet_storeSet_ne _ _ _ _ h]
  · have hf := Bool.eq_false_iff.mpr ht
    simp only [hf, Bool.false_eq_true, if_false]
    rw [storeGet_storeSet_self]
    simp only [jsSetProp, Option.getD_some]
    rw [storeSet_storeSet_self]
    exact storeGet_storeSet_ne _ _ _ _ h

/-- An edit preserves well-formedness of the store. -/
theorem noteApply_storeWF (items : List Item) (k x : String) (now : Nat)
    (store : List (String × JSVal)) (h : storeWF store = true) :
    storeWF (noteApply items k x now store) = true := by
  unfold noteApply noteApplyCore
  by_cases ht : ((storeGet store k).getD JSVal.undefined).truthy = true
  · have hOK := storeWF_slotOK k store h
    unfold slotOK at hOK
    rw [ht] at hOK
    simp only [Bool.not_true, Bool.false_or] at hOK
    rcases hv : storeGet store k with _ | v
    · rw [hv] at ht
      simp [JSVal.truthy] at ht
    · rw [hv] at hOK
      simp only [Option.getD_some] at hOK
      rcases v with _ | _ | b | n | s | l | fields
      · simp [JSVal.isObj] at hOK
      · simp [JSVal.isObj] at hOK
      · simp [JSVal.isObj] at hOK
      · simp [JSVal.isObj] at hOK
      · simp [JSVal.isObj] at hOK
      · simp [JSVal.isObj] at hOK
      · simp only [hv, Option.getD_some, JSVal.truthy, if_true, jsSetProp]
        refine storeWF_storeSet k _ ?_ store h
        rfl
  · have hf := Bool.eq_false_iff.mpr ht
    simp only [hf, Bool.false_eq_true, if_false]
    rw [storeGet_storeSet_self]
    simp only [jsSetProp, Option.getD_some]
    rw [storeSet_storeSet_self]
    refine storeWF_storeSet k _ ?_ store h
    rfl

/-! ## Machine-level lemmas for the notes tab -/

theorem fireIfDue_fields (s : NoteSt) (t : Nat) :
    (fireIfDue s t).notesStore = s.notesStore ∧
    (fireIfDue s t).currentNoteKey = s.currentNoteKey := by
  unfold fireIfDue
  rcases hT : s.noteSaveTimer with _ | d
  · exact ⟨rfl, rfl⟩
  · by_cases hd : d ≤ t <;> simp [hd]

/-- The basic consistency invariant of debounced persistence: whenever no
timer is pending, the persisted registry equals the in-memory one (the
module starts this way since `notesStore` is loaded from storage). -/
def NoteInv (s : NoteSt) : Prop :=
  s.noteSaveTimer = none → s.persistedNotes = s.notesStore

theorem fireIfDue_inv (s : NoteSt) (t : Nat) (h : NoteInv s) :
    NoteInv (fireIfDue s t) := by
  unfold fireIfDue
  rcases hT : s.noteSaveTimer with _ | d
  · exact h
  · by_cases hd : d ≤ t
    · simp [hd, NoteInv]
    · simpa [hd] using h

theorem noteStep_edit_key (items : List Item) (s : NoteSt) (t : Nat) (x : String) :
    (noteStep items s t (.edit x)).currentNoteKey = s.currentNoteKey := by
  unfold noteStep
  rcases hck : s.currentNoteKey with _ | k2
  · rw [hck]
  · simp only [hck]
    split <;> rfl

theorem noteStep_edit_store_other (items : List Item) (s : NoteSt) (t : Nat)
    (x k : String) (h : s.currentNoteKey ≠ some k) :
    storeGet (noteStep items s t (.edit x)).notesStore k = storeGet s.notesStore k := by
  unfold noteStep
  rcases hck : s.currentNoteKey with _ | k2
  · rfl
  · have hk2 : k2 ≠ k := fun hc => h (by rw [hck, hc])
    simp only [hck]
    split
    · exact noteApply_get_other items k2 x t s.notesStore k hk2
    · exact noteApply_get_other items k2 x t s.notesStore k hk2

theorem noteStep_inv (items : List Item) (s : NoteSt) (t : Nat) (e : NEv)
    (h : NoteInv s) : NoteInv (noteStep items s t e) := by
  cases e with
  | select k => simpa [noteStep, NoteInv] using h
  | edit x =>
    unfold noteStep
    rcases hck : s.currentNoteKey with _ | k2
    · exact h
    · simp only [hck]
      split
    /- the two branches: scheduled (timer some, invariant vacuous) and
       failed edit (store unchanged) -/
      · intro hc
        exact Option.noConfusion hc
      · rename_i hok
        have hf : (noteApplyCore items k2 x t s.notesStore).2 = false :=
          Bool.eq_false_iff.mpr hok
        have hst := noteApplyCore_fail items k2 x t s.notesStore hf
        intro hc
        rw [hst]
        exact h hc

theorem runNotes_cons (items : List Item) (s : NoteSt) (t : Nat) (e : NEv)
    (rest : List (Nat × NEv)) :
    runNotes items s ((t, e) :: rest) =
      runNotes items (noteStep items (fireIfDue s t) t e) rest := rfl

theorem runNotes_append (items : List Item) (l1 : List (Nat × NEv)) :
    ∀ (s : NoteSt) (l2 : List (Nat × NEv)),
      runNotes items s (l1 ++ l2) = runNotes items (runNotes items s l1) l2 := by
  induction l1 with
  | nil => intro s l2; rfl
  | cons p rest ih =>
    intro s l2
    obtain ⟨t, e⟩ := p
    exact ih _ l2

theorem runNotes_inv (items : List Item) (evs : List (Nat × NEv)) :
    ∀ s : NoteSt, NoteInv s → NoteInv (runNotes items s evs) := by
  induction evs with
  | nil => intro s h; exact h
  | cons p rest ih =>
    intro s h
    obtain ⟨t, e⟩ := p
    exact ih _ (noteStep_inv items _ t e (fireIfDue_inv s t h))

theorem settleNotes_persisted (s : NoteSt) (h : NoteInv s) :
    (settleNotes s).persistedNotes = s.notesStore ∧
    (settleNotes s).notesStore = s.notesStore := by
  unfold settleNotes
  rcases hT : s.noteSaveTimer with _ | d
  · exact ⟨h hT, rfl⟩
  · exact ⟨rfl, rfl⟩

/-- No event of the trace selects key `k`. -/
def selectsAway (k : String) : List (Nat × NEv) → Bool
  | [] => true
  | (_, .select kq) :: rest => (kq != k) && selectsAway k rest
  | (_, .edit _) :: rest => selectsAway k rest

theorem noteStep_edit_ok (items : List Item) (s : NoteSt) (t : Nat) (x k : String)
    (hck : s.currentNoteKey = some k)
    (hok : (noteApplyCore items k x t s.notesStore).2 = true) :
    noteStep items s t (.edit x) =
      { s with notesStore := (noteApplyCore items k x t s.notesStore).1,
               noteSaveTimer := some (t + NOTE_DEBOUNCE_MS) } := by
  unfold noteStep
  rw [hck]
  simp [hok]

theorem runNotes_preserves_other_key (items : List Item) (k : String)
    (evs : List (Nat × NEv)) :
    ∀ s : NoteSt, s.currentNoteKey ≠ some k → selectsAway k evs = true →
      storeGet (runNotes items s evs).notesStore k = storeGet s.notesStore k ∧
      (runNotes items s evs).currentNoteKey ≠ some k := by
  induction evs with
  | nil => intro s h1 _; exact ⟨rfl, h1⟩
  | cons p rest ih =>
    intro s h1 h2
    obtain ⟨t, e⟩ := p
    cases e with
    | select kq =>
      rw [selectsAway, Bool.and_eq_true] at h2
      obtain ⟨hq, hrest⟩ := h2
      have hq' : kq ≠ k := by simpa using hq
      rw [runNotes_cons]
      have hstep : (noteStep items (fireIfDue s t) t (.select kq)).notesStore =
          s.notesStore := by
        simp [noteStep, (fireIfDue_fields s t).1]
      have hkey : (noteStep items (fireIfDue s t) t (.select kq)).currentNoteKey ≠
          some k := by
        simp only [noteStep]
        by_cases hq0 : kq = ""
        · simp [hq0]
        · simp [hq0, hq']
      obtain ⟨ha, hb⟩ := ih _ hkey hrest
      exact ⟨by rw [ha, hstep], hb⟩
    | edit x =>
      have hrest : selectsAway k rest = true := h2
      rw [runNotes_cons]
      have hkeyB : (fireIfDue s t).currentNoteKey ≠ some k := by
        rw [(fireIfDue_fields s t).2]
        exact h1
      have hkey : (noteStep items (fireIfDue s t) t (.edit x)).currentNoteKey ≠
          some k := by
        rw [noteStep_edit_key, (fireIfDue_fields s t).2]
        exact h1
      have hstep : storeGet (noteStep items (fireIfDue s t) t (.edit x)).notesStore k =
          storeGet s.notesStore k := by
        rw [noteStep_edit_store_other items _ t x k hkeyB, (fireIfDue_fields s t).1]
      obtain ⟨ha, hb⟩ := ih _ hkey hrest
      exact ⟨by rw [ha, hstep], hb⟩

/-! ## C4 -/

/-- C4 (confirmed): an edit of text `x` under key `k` followed by a switch
of the active key before (or after) the debounce fires is never lost — the
in-memory record for `k` at the time of the switch holds text `x`, and once
the trace quiesces the persisted registry holds exactly that record, never
an earlier value.  (The code neither cancels nor flushes the timer on
switch; the pending timer later persists the whole registry, which already
contains the previous key's last in-memory text.) -/
theorem c4_switch_keeps_pending_edit (items : List Item) (s0 : NoteSt)
    (pre post : List (Nat × NEv)) (t tq : Nat) (k kq x : String)
    (hinv : NoteInv s0)
    (hk : k ≠ "")
    (hkq : kq ≠ k)
    (hpost : selectsAway k post = true)
    (hslot : slotOK ((storeGet (runNotes items s0 pre).notesStore k).getD .undefined) = true) :
    ∃ fields,
      storeGet (runNotes items s0
          (pre ++ [(t, .select k), (t, .edit x)])).notesStore k = some (.obj fields) ∧
      storeGet fields "notes" = some (.str x) ∧
      storeGet (settleNotes (runNotes items s0
          ((pre ++ [(t, .select k), (t, .edit x)]) ++
            (tq, .select kq) :: post))).persistedNotes k = some (.obj fields) := by
  have hrun2 : runNotes items s0 (pre ++ [(t, .select k), (t, .edit x)]) =
      noteStep items (fireIfDue (noteStep items (fireIfDue (runNotes items s0 pre) t) t
        (.select k)) t) t (.edit x) := by
    rw [runNotes_append]
    rfl
  have hBkey : (fireIfDue (noteStep items (fireIfDue (runNotes items s0 pre) t) t
      (.select k)) t).currentNoteKey = some k := by
    rw [(fireIfDue_fields _ t).2]
    simp [noteStep, hk]
  have hBstore : (fireIfDue (noteStep items (fireIfDue (runNotes items s0 pre) t) t
      (.select k)) t).notesStore = (runNotes items s0 pre).notesStore := by
    rw [(fireIfDue_fields _ t).1]
    simp [noteStep, (fireIfDue_fields (runNotes items s0 pre) t).1]
  have hslotB : slotOK ((storeGet (fireIfDue (noteStep items
      (fireIfDue (runNotes items s0 pre) t) t (.select k)) t).notesStore k).getD
        .undefined) = true := by
    rw [hBstore]
    exact hslot
  obtain ⟨hok, fields, hget, hnotes⟩ :=
    noteApplyCore_ok items k x t _ hslotB
  have hstep := noteStep_edit_ok items (fireIfDue (noteStep items
      (fireIfDue (runNotes items s0 pre) t) t (.select k)) t) t x k hBkey hok
  refine ⟨fields, ?_, hnotes, ?_⟩
  · rw [hrun2, hstep]
    exact hget
  · rw [runNotes_append items (pre ++ [(t, NEv.select k), (t, NEv.edit x)]) s0
      ((tq, NEv.select kq) :: post), hrun2, runNotes_cons]
    have h3key : (noteStep items (fireIfDue (noteStep items (fireIfDue (noteStep items
        (fireIfDue (runNotes items s0 pre) t) t (.select k)) t) t (.edit x)) tq) tq
        (.select kq)).currentNoteKey ≠ some k := by
      simp only [noteStep]
      by_cases hq0 : kq = ""
      · simp [hq0]
      · simp [hq0, hkq]
    have h3store : storeGet (noteStep items (fireIfDue (noteStep items (fireIfDue
        (noteStep items (fireIfDue (runNotes items s0 pre) t) t (.select k)) t) t
        (.edit x)) tq) tq (.select kq)).notesStore k = some (.obj fields) := by
      show storeGet ((noteStep items _ tq (.select kq)).notesStore) k = _
      have hsel : ∀ s : NoteSt, (noteStep items s tq (.select kq)).notesStore =
          s.notesStore := fun s => rfl
      rw [hsel, (fireIfDue_fields _ tq).1, hstep]
      exact hget
    obtain ⟨hpres, _⟩ := runNotes_preserves_other_key items k post _ h3key hpost
    have hinv3 : NoteInv (noteStep items (fireIfDue (noteStep items (fireIfDue
        (noteStep items (fireIfDue (runNotes items s0 pre) t) t (.select k)) t) t
        (.edit x)) tq) tq (.select kq)) := by
      apply noteStep_inv
      apply fireIfDue_inv
      apply noteStep_inv
      apply fireIfDue_inv
      apply noteStep_inv
      apply fireIfDue_inv
      exact runNotes_inv items pre s0 hinv
    have hinvEnd : NoteInv (runNotes items (noteStep items (fireIfDue (noteStep items
        (fireIfDue (noteStep items (fireIfDue (runNotes items s0 pre) t) t
          (.select k)) t) t (.edit x)) tq) tq (.select kq)) post) :=
      runNotes_inv items post _ hinv3
    obtain ⟨hPers, _⟩ := settleNotes_persisted _ hinvEnd
    rw [hPers, hpres, h3store]

/-- Witness for `c4_switch_keeps_pending_edit`: typing "hello" under key
"a" and immediately switching to key "b" still persists "hello" for "a". -/
theorem c4_switch_keeps_pending_edit_witness :
    (NoteInv ⟨[], [], none, none, []⟩ ∧ "a" ≠ "" ∧ "b" ≠ "a" ∧
      selectsAway "a" [] = true ∧
      slotOK ((storeGet (runNotes [] ⟨[], [], none, none, []⟩ []).notesStore
        "a").getD .undefined) = true) ∧
    ∃ fields,
      storeGet (runNotes [] ⟨[], [], none, none, []⟩
          ([] ++ [(0, .select "a"), (0, .edit "hello")])).notesStore "a" =
        some (.obj fields) ∧
      storeGet fields "notes" = some (.str "hello") ∧
      storeGet (settleNotes (runNotes [] ⟨[], [], none, none, []⟩
          (([] ++ [(0, .select "a"), (0, .edit "hello")]) ++
            (100, .select "b") :: []))).persistedNotes "a" = some (.obj fields) :=
  ⟨⟨fun _ => rfl, by decide, by decide, rfl, rfl⟩,
    c4_switch_keeps_pending_edit [] ⟨[], [], none, none, []⟩ [] [] 0 100 "a" "b"
      "hello" (fun _ => rfl) (by decide) (by decide) rfl rfl⟩

/-! ## Debounce-write characterization lemmas -/

theorem fireIfDue_none (s : NoteSt) (t : Nat) (h : s.noteSaveTimer = none) :
    fireIfDue s t = s := by
  unfold fireIfDue
  rw [h]

theorem fireIfDue_not_due (s : NoteSt) (t d : Nat) (h : s.noteSaveTimer = some d)
    (hd : ¬ d ≤ t) : fireIfDue s t = s := by
  unfold fireIfDue
  simp only [h]
  rw [if_neg hd]

theorem run_edits_pendingWrites (items : List Item) (k : String) :
    ∀ (es : List (Nat × String)) (s : NoteSt) (d : Nat),
      s.currentNoteKey = some k →
      s.noteSaveTimer = some d →
      slotOK ((storeGet s.notesStore k).getD .undefined) = true →
      (settleNotes (runNotes items s (es.map fun p => (p.1, NEv.edit p.2)))).writes =
          s.writes ++ pendingWrites items k s.notesStore d es ∧
      (settleNotes (runNotes items s (es.map fun p => (p.1, NEv.edit p.2)))).notesStore =
          es.foldl (fun store p => noteApply items k p.2 p.1 store) s.notesStore := by
  intro es
  induction es with
  | nil =>
    intro s d _ hT _
    simp [settleNotes, runNotes, hT, pendingWrites]
  | cons p rest ih =>
    intro s d hck hT hslot
    obtain ⟨t, x⟩ := p
    rw [List.map_cons, runNotes_cons]
    obtain ⟨hok, fields, hget, _⟩ := noteApplyCore_ok items k x t s.notesStore hslot
    have hckF : (fireIfDue s t).currentNoteKey = some k := by
      rw [(fireIfDue_fields s t).2]
      exact hck
    have hstF : (fireIfDue s t).notesStore = s.notesStore := (fireIfDue_fields s t).1
    have hokF : (noteApplyCore items k x t (fireIfDue s t).notesStore).2 = true := by
      rw [hstF]
      exact hok
    have hstep := noteStep_edit_ok items (fireIfDue s t) t x k hckF hokF
    have h1 : (noteStep items (fireIfDue s t) t (.edit x)).currentNoteKey = some k := by
      rw [noteStep_edit_key, (fireIfDue_fields s t).2]
      exact hck
    have h2 : (noteStep items (fireIfDue s t) t (.edit x)).noteSaveTimer =
        some (t + NOTE_DEBOUNCE_MS) := by
      rw [hstep]
    have hs2 : (noteStep items (fireIfDue s t) t (.edit x)).notesStore =
        (noteApplyCore items k x t s.notesStore).1 := by
      rw [hstep]
      show (noteApplyCore items k x t (fireIfDue s t).notesStore).1 = _
      rw [hstF]
    have h3 : slotOK ((storeGet
        (noteStep items (fireIfDue s t) t (.edit x)).notesStore k).getD .undefined) = true := by
      rw [hs2, hget]
      exact slotOK_of_isObj _ rfl
    obtain ⟨hW, hS⟩ := ih (noteStep items (fireIfDue s t) t (.edit x))
      (t + NOTE_DEBOUNCE_MS) h1 h2 h3
    by_cases hd : d ≤ t
    · have hfire : fireIfDue s t =
          { s with persistedNotes := s.notesStore,
                   writes := s.writes ++ [(d, s.notesStore)],
                   noteSaveTimer := none } := by
        unfold fireIfDue
        simp only [hT]
        rw [if_pos hd]
      have hw2 : (noteStep items (fireIfDue s t) t (.edit x)).writes =
          s.writes ++ [(d, s.notesStore)] := by
        rw [hstep]
        show (fireIfDue s t).writes = _
        rw [hfire]
      constructor
      · rw [hW, hw2, hs2]
        show s.writes ++ [(d, s.notesStore)] ++
            pendingWrites items k (noteApplyCore items k x t s.notesStore).1
              (t + NOTE_DEBOUNCE_MS) rest =
          s.writes ++ pendingWrites items k s.notesStore d ((t, x) :: rest)
        rw [pendingWrites, if_pos hd, List.append_assoc]
        rfl
      · rw [hS, hs2]
        rfl
    · have hfire : fireIfDue s t = s := by
        unfold fireIfDue
        simp only [hT]
        rw [if_neg hd]
      have hw2 : (noteStep items (fireIfDue s t) t (.edit x)).writes = s.writes := by
        rw [hstep]
        show (fireIfDue s t).writes = _
        rw [hfire]
      constructor
      · rw [hW, hw2, hs2]
        show s.writes ++
            pendingWrites items k (noteApplyCore items k x t s.notesStore).1
              (t + NOTE_DEBOUNCE_MS) rest =
          s.writes ++ pendingWrites items k s.notesStore d ((t, x) :: rest)
        rw [pendingWrites, if_neg hd, List.nil_append]
        rfl
      · rw [hS, hs2]
        rfl

theorem pendingWrites_collapse (items : List Item) (k : String) :
    ∀ (es : List (Nat × String)) (store : List (String × JSVal)) (tp : Nat),
      withinFrom tp es = true →
      pendingWrites items k store (tp + NOTE_DEBOUNCE_MS) es =
        [(lastTime tp es + NOTE_DEBOUNCE_MS,
          es.foldl (fun st p => noteApply items k p.2 p.1 st) store)] := by
  intro es
  induction es with
  | nil => intro store tp _; rfl
  | cons p rest ih =>
    intro store tp h
    obtain ⟨t, x⟩ := p
    rw [withinFrom] at h
    simp only [Bool.and_eq_true, decide_eq_true_eq] at h
    obtain ⟨⟨h1, h2⟩, h3⟩ := h
    rw [pendingWrites, if_neg (by omega), List.nil_append, ih _ t h3]
    rfl

theorem lastText_irrel (es : List (Nat × String)) (a b : String) (h : es ≠ []) :
    lastText a es = lastText b es := by
  rcases es with _ | ⟨⟨t, x⟩, rest⟩
  · exact absurd rfl h
  · rfl

theorem foldl_noteApply_notes (items : List Item) (k : String) :
    ∀ (es : List (Nat × String)) (store : List (String × JSVal)),
      slotOK ((storeGet store k).getD .undefined) = true → es ≠ [] →
      ∃ fields,
        storeGet (es.foldl (fun st p => noteApply items k p.2 p.1 st) store) k =
          some (.obj fields) ∧
        storeGet fields "notes" = some (.str (lastText "" es)) := by
  intro es
  induction es with
  | nil => intro store _ h; exact absurd rfl h
  | cons p rest ih =>
    intro store hslot _
    obtain ⟨t, x⟩ := p
    obtain ⟨_, fields, hget, hnotes⟩ := noteApplyCore_ok items k x t store hslot
    rcases rest with _ | ⟨q, rest2⟩
    · exact ⟨fields, hget, hnotes⟩
    · have hslot1 : slotOK ((storeGet (noteApply items k x t store) k).getD
          .undefined) = true := by
        show slotOK ((storeGet (noteApplyCore items k x t store).1 k).getD .undefined) = true
        rw [hget]
        exact slotOK_of_isObj _ rfl
      obtain ⟨f2, hg2, hn2⟩ := ih (noteApply items k x t store) hslot1 (by simp)
      refine ⟨f2, hg2, ?_⟩
      rw [hn2, lastText_irrel (q :: rest2) "" x (by simp)]
      rfl

/-! ## C5 -/

/-- C5 (confirmed, precise form): starting quiescent, a sequence of edits to
one key produces exactly the debounce writes described by the gap structure
of the edit times — one write per debounce window that elapses without a
further edit, each containing the then-current registry; in particular, when
every successive gap lies inside the window, the whole sequence collapses to
exactly one persisted write, timed one window after the last edit and
holding the last edit's text (last-write-wins). -/
theorem c5_debounce_collapse (items : List Item) (k : String) (s0 : NoteSt)
    (t0 : Nat) (es : List (Nat × String))
    (hk : k ≠ "")
    (hT : s0.noteSaveTimer = none)
    (hslot : slotOK ((storeGet s0.notesStore k).getD .undefined) = true) :
    (settleNotes (runNotes items s0
        ((t0, NEv.select k) :: es.map fun p => (p.1, NEv.edit p.2)))).writes =
      s0.writes ++ debounceWrites items k s0.notesStore es ∧
    (es ≠ [] → gapsWithin es = true →
      debounceWrites items k s0.notesStore es =
        [(lastTime 0 es + NOTE_DEBOUNCE_MS,
          es.foldl (fun st p => noteApply items k p.2 p.1 st) s0.notesStore)] ∧
      ∃ fields,
        storeGet (es.foldl (fun st p => noteApply items k p.2 p.1 st)
            s0.notesStore) k = some (.obj fields) ∧
        storeGet fields "notes" = some (.str (lastText "" es))) := by
  constructor
  · rw [runNotes_cons, fireIfDue_none s0 t0 hT]
    have hsel : noteStep items s0 t0 (.select k) =
        { s0 with currentNoteKey := some k } := by
      simp [noteStep, hk]
    rw [hsel]
    rcases es with _ | ⟨⟨t, x⟩, rest⟩
    · show (settleNotes { s0 with currentNoteKey := some k }).writes = s0.writes ++ []
      unfold settleNotes
      simp [hT]
    · rw [List.map_cons, runNotes_cons]
      have hT1 : ({ s0 with currentNoteKey := some k } : NoteSt).noteSaveTimer =
          none := hT
      rw [fireIfDue_none _ t hT1]
      have hslot1 : slotOK ((storeGet
          ({ s0 with currentNoteKey := some k } : NoteSt).notesStore k).getD
            .undefined) = true := hslot
      obtain ⟨hok, fields, hget, _⟩ := noteApplyCore_ok items k x t
        ({ s0 with currentNoteKey := some k } : NoteSt).notesStore hslot1
      have hstep := noteStep_edit_ok items
        { s0 with currentNoteKey := some k } t x k rfl hok
      rw [hstep]
      have hslot2 : slotOK ((storeGet (noteApplyCore items k x t
          ({ s0 with currentNoteKey := some k } : NoteSt).notesStore).1 k).getD
            .undefined) = true := by
        rw [hget]
        exact slotOK_of_isObj _ rfl
      obtain ⟨hW, _⟩ := run_edits_pendingWrites items k rest
        { s0 with currentNoteKey := some k,
                  notesStore := (noteApplyCore items k x t
                    ({ s0 with currentNoteKey := some k } : NoteSt).notesStore).1,
                  noteSaveTimer := some (t + NOTE_DEBOUNCE_MS) }
        (t + NOTE_DEBOUNCE_MS) rfl rfl hslot2
      rw [hW]
      rfl
  · intro hne hgaps
    rcases es with _ | ⟨⟨t, x⟩, rest⟩
    · exact absurd rfl hne
    · have hwithin : withinFrom t rest = true := hgaps
      constructor
      · show pendingWrites items k (noteApply items k x t s0.notesStore)
            (t + NOTE_DEBOUNCE_MS) rest = _
        rw [pendingWrites_collapse items k rest _ t hwithin]
        rfl
      · exact foldl_noteApply_notes items k ((t, x) :: rest) s0.notesStore hslot hne

/-- Witness for `c5_debounce_collapse`: two edits 100 ms apart collapse to
one persisted write with the later text. -/
theorem c5_debounce_collapse_witness :
    ("g" ≠ "") ∧
    (⟨[], [], none, none, []⟩ : NoteSt).noteSaveTimer = none ∧
    slotOK ((storeGet (⟨[], [], none, none, []⟩ : NoteSt).notesStore "g").getD
      .undefined) = true ∧
    ([((0 : Nat), "a"), (100, "ab")] ≠ ([] : List (Nat × String))) ∧
    gapsWithin [(0, "a"), (100, "ab")] = true ∧
    (settleNotes (runNotes [] ⟨[], [], none, none, []⟩
        ((5, NEv.select "g") ::
          [((0 : Nat), "a"), (100, "ab")].map fun p => (p.1, NEv.edit p.2)))).writes =
      (⟨[], [], none, none, []⟩ : NoteSt).writes ++
        debounceWrites [] "g" (⟨[], [], none, none, []⟩ : NoteSt).notesStore
          [(0, "a"), (100, "ab")] ∧
    (debounceWrites [] "g" (⟨[], [], none, none, []⟩ : NoteSt).notesStore
        [(0, "a"), (100, "ab")] =
      [(lastTime 0 [((0 : Nat), "a"), (100, "ab")] + NOTE_DEBOUNCE_MS,
        [((0 : Nat), "a"), (100, "ab")].foldl
          (fun st p => noteApply [] "g" p.2 p.1 st)
          (⟨[], [], none, none, []⟩ : NoteSt).notesStore)] ∧
      ∃ fields,
        storeGet ([((0 : Nat), "a"), (100, "ab")].foldl
            (fun st p => noteApply [] "g" p.2 p.1 st)
            (⟨[], [], none, none, []⟩ : NoteSt).notesStore) "g" =
          some (.obj fields) ∧
        storeGet fields "notes" =
          some (.str (lastText "" [((0 : Nat), "a"), (100, "ab")]))) :=
  ⟨by decide, rfl, rfl, by simp, rfl,
    (c5_debounce_collapse [] "g" ⟨[], [], none, none, []⟩ 5
      [(0, "a"), (100, "ab")] (by decide) rfl rfl).1,
    (c5_debounce_collapse [] "g" ⟨[], [], none, none, []⟩ 5
      [(0, "a"), (100, "ab")] (by decide) rfl rfl).2 (by simp) rfl⟩

/-! ## C10 -/

theorem run_multi_within (items : List Item) :
    ∀ (tri : List (Nat × String × String)) (s : NoteSt) (tp : Nat),
      s.noteSaveTimer = some (tp + NOTE_DEBOUNCE_MS) →
      storeWF s.notesStore = true →
      keysOKT tri = true →
      withinFromT tp tri = true →
      (settleNotes (runNotes items s (multiTrace tri))).writes =
          s.writes ++ [(lastTimeT tp tri + NOTE_DEBOUNCE_MS,
            foldEdits items s.notesStore tri)] ∧
      (settleNotes (runNotes items s (multiTrace tri))).notesStore =
          foldEdits items s.notesStore tri ∧
      (settleNotes (runNotes items s (multiTrace tri))).persistedNotes =
          foldEdits items s.notesStore tri := by
  intro tri
  induction tri with
  | nil =>
    intro s tp hT _ _ _
    unfold settleNotes
    simp [hT, lastTimeT, foldEdits, runNotes, multiTrace]
  | cons p rest ih =>
    intro s tp hT hwf hkeys hgaps
    obtain ⟨t, q⟩ := p
    obtain ⟨k, x⟩ := q
    rw [keysOKT, Bool.and_eq_true] at hkeys
    obtain ⟨hk0, hkeys2⟩ := hkeys
    have hk : k ≠ "" := by simpa using hk0
    simp only [withinFromT, Bool.and_eq_true, decide_eq_true_eq] at hgaps
    obtain ⟨⟨h1, h2⟩, hgaps2⟩ := hgaps
    rw [show multiTrace ((t, k, x) :: rest) =
      (t, NEv.select k) :: (t, NEv.edit x) :: multiTrace rest from rfl]
    rw [runNotes_cons]
    rw [fireIfDue_not_due s t (tp + NOTE_DEBOUNCE_MS) hT (by omega)]
    have hsel : noteStep items s t (.select k) =
        { s with currentNoteKey := some k } := by
      simp [noteStep, hk]
    rw [runNotes_cons, hsel]
    have hT1 : ({ s with currentNoteKey := some k } : NoteSt).noteSaveTimer =
        some (tp + NOTE_DEBOUNCE_MS) := hT
    rw [fireIfDue_not_due { s with currentNoteKey := some k } t
      (tp + NOTE_DEBOUNCE_MS) hT1 (by omega)]
    have hslot : slotOK ((storeGet
        ({ s with currentNoteKey := some k } : NoteSt).notesStore k).getD
          .undefined) = true :=
      storeWF_slotOK k s.notesStore hwf
    obtain ⟨hok, fields, hget, _⟩ := noteApplyCore_ok items k x t
      ({ s with currentNoteKey := some k } : NoteSt).notesStore hslot
    have hstep := noteStep_edit_ok items
      { s with currentNoteKey := some k } t x k rfl hok
    rw [hstep]
    have hwf2 : storeWF (noteApplyCore items k x t
        ({ s with currentNoteKey := some k } : NoteSt).notesStore).1 = true :=
      noteApply_storeWF items k x t s.notesStore hwf
    obtain ⟨hW, hS, hP⟩ := ih
      { s with currentNoteKey := some k,
               notesStore := (noteApplyCore items k x t
                 ({ s with currentNoteKey := some k } : NoteSt).notesStore).1,
               noteSaveTimer := some (t + NOTE_DEBOUNCE_MS) }
      t rfl hwf2 hkeys2 hgaps2
    exact ⟨by rw [hW]; rfl, by rw [hS]; rfl, by rw [hP]; rfl⟩

/-- C10 (confirmed): the debounce timer is one shared slot for all keys —
for any nonempty interleaving of edits across multiple keys whose
successive gaps all lie below the quiescence window, exactly one persisted
write occurs; it fires one window after the last edit, writes the entire
registry in a single store write, and that snapshot is exactly the final
in-memory state of every edited key. -/
theorem c10_shared_debounce (items : List Item) (s0 : NoteSt)
    (t1 : Nat) (k1 x1 : String) (rest : List (Nat × String × String))
    (hT : s0.noteSaveTimer = none)
    (hwf : storeWF s0.notesStore = true)
    (hkeys : keysOKT ((t1, k1, x1) :: rest) = true)
    (hgaps : withinFromT t1 rest = true) :
    (settleNotes (runNotes items s0 (multiTrace ((t1, k1, x1) :: rest)))).writes =
      s0.writes ++ [(lastTimeT t1 rest + NOTE_DEBOUNCE_MS,
        foldEdits items s0.notesStore ((t1, k1, x1) :: rest))] ∧
    (settleNotes (runNotes items s0 (multiTrace ((t1, k1, x1) :: rest)))).notesStore =
      foldEdits items s0.notesStore ((t1, k1, x1) :: rest) ∧
    (settleNotes (runNotes items s0
        (multiTrace ((t1, k1, x1) :: rest)))).persistedNotes =
      foldEdits items s0.notesStore ((t1, k1, x1) :: rest) := by
  rw [keysOKT, Bool.and_eq_true] at hkeys
  obtain ⟨hk0, hkeys2⟩ := hkeys
  have hk : k1 ≠ "" := by simpa using hk0
  rw [show multiTrace ((t1, k1, x1) :: rest) =
    (t1, NEv.select k1) :: (t1, NEv.edit x1) :: multiTrace rest from rfl]
  rw [runNotes_cons, fireIfDue_none s0 t1 hT]
  have hsel : noteStep items s0 t1 (.select k1) =
      { s0 with currentNoteKey := some k1 } := by
    simp [noteStep, hk]
  rw [runNotes_cons, hsel]
  have hT1 : ({ s0 with currentNoteKey := some k1 } : NoteSt).noteSaveTimer =
      none := hT
  rw [fireIfDue_none _ t1 hT1]
  have hslot : slotOK ((storeGet
      ({ s0 with currentNoteKey := some k1 } : NoteSt).notesStore k1).getD
        .undefined) = true :=
    storeWF_slotOK k1 s0.notesStore hwf
  obtain ⟨hok, fields, hget, _⟩ := noteApplyCore_ok items k1 x1 t1
    ({ s0 with currentNoteKey := some k1 } : NoteSt).notesStore hslot
  have hstep := noteStep_edit_ok items
    { s0 with currentNoteKey := some k1 } t1 x1 k1 rfl hok
  rw [hstep]
  have hwf2 : storeWF (noteApplyCore items k1 x1 t1
      ({ s0 with currentNoteKey := some k1 } : NoteSt).notesStore).1 = true :=
    noteApply_storeWF items k1 x1 t1 s0.notesStore hwf
  obtain ⟨hW, hS, hP⟩ := run_multi_within items rest
    { s0 with currentNoteKey := some k1,
              notesStore := (noteApplyCore items k1 x1 t1
                ({ s0 with currentNoteKey := some k1 } : NoteSt).notesStore).1,
              noteSaveTimer := some (t1 + NOTE_DEBOUNCE_MS) }
    t1 rfl hwf2 hkeys2 hgaps
  exact ⟨by rw [hW]; rfl, by rw [hS]; rfl, by rw [hP]; rfl⟩

/-- Witness for `c10_shared_debounce`: edits to two different keys 100 ms
apart yield exactly one persisted write holding both final records. -/
theorem c10_shared_debounce_witness :
    (⟨[], [], none, none, []⟩ : NoteSt).noteSaveTimer = none ∧
    storeWF (⟨[], [], none, none, []⟩ : NoteSt).notesStore = true ∧
    keysOKT [((0 : Nat), "a", "x"), (100, "b", "y")] = true ∧
    withinFromT 0 [((100 : Nat), "b", "y")] = true ∧
    (settleNotes (runNotes [] ⟨[], [], none, none, []⟩
        (multiTrace [((0 : Nat), "a", "x"), (100, "b", "y")]))).writes =
      (⟨[], [], none, none, []⟩ : NoteSt).writes ++
        [(lastTimeT 0 [((100 : Nat), "b", "y")] + NOTE_DEBOUNCE_MS,
          foldEdits [] (⟨[], [], none, none, []⟩ : NoteSt).notesStore
            [((0 : Nat), "a", "x"), (100, "b", "y")])] ∧
    (settleNotes (runNotes [] ⟨[], [], none, none, []⟩
        (multiTrace [((0 : Nat), "a", "x"), (100, "b", "y")]))).notesStore =
      foldEdits [] (⟨[], [], none, none, []⟩ : NoteSt).notesStore
        [((0 : Nat), "a", "x"), (100, "b", "y")] ∧
    (settleNotes (runNotes [] ⟨[], [], none, none, []⟩
        (multiTrace [((0 : Nat), "a", "x"), (100, "b", "y")]))).persistedNotes =
      foldEdits [] (⟨[], [], none, none, []⟩ : NoteSt).notesStore
        [((0 : Nat), "a", "x"), (100, "b", "y")] :=
  ⟨rfl, rfl, rfl, rfl,
    c10_shared_debounce [] ⟨[], [], none, none, []⟩ 0 "a" "x"
      [(100, "b", "y")] rfl rfl rfl rfl⟩

end SaveProgress
